import Mathlib

/-!
Verification development for the ClassScheduler repository (src/app.py).

The scheduling core of `app.py` is embedded shallowly: each Python function of
the constraint-based placement engine is translated to an executable Lean
definition with the same name (snake case kept where Lean allows it), and the
claims about the specification are settled as theorems over these definitions.

Modelling conventions, fixed once here:
* Python dicts whose iteration order matters are modelled as association
  lists in insertion order (`lookupA` / `insertA` below); value overwrite
  keeps the original position, matching CPython dict semantics.
* The schedule grid `self.schedule` (built for the five days and the periods
  1..11, `range(1, 12)` in the source) is modelled as a total function
  `Day → Nat → List ClassInfo`; slots outside 1..11 are never touched by any
  run that satisfies the `validPeriods` well-formedness hypothesis, which
  mirrors the inputs on which the Python code does not raise `KeyError`.
* Text cleaning (`clean_text_data`, `clean_student_list`) is the caller's
  duty per the specification (inputs arrive de-duplicated and
  whitespace-normalized), so class records carry already-clean strings and
  student lists; name lookups compare strings directly, exactly as the
  already-normalized Python comparisons do.
* Diagnostic strings built by the source (conflict messages, room display
  names) are modelled structurally (`Conflict`, `SlotConflict`, `RoomAssign`)
  rather than as formatted text; only their presence and shape matter to the
  engine and to the claims.
-/

/-- The five weekdays of the grid (the module constant DAYS in app.py). -/
inductive Day where
  | monday
  | tuesday
  | wednesday
  | thursday
  | friday
deriving DecidableEq

/-- DAYS = the five weekdays in order, as in app.py. -/
def DAYS : List Day :=
  [Day.monday, Day.tuesday, Day.wednesday, Day.thursday, Day.friday]

/-- The period keys of the schedule grid: `range(1, 12)` in
`generate_schedule_internal` (period 11 is the source comment "Period 7b"). -/
def PERIODS_ALL : List Nat := [1, 2, 3, 4, 5, 6, 7, 8, 9, 10, 11]

/-- The six concrete rooms of the building (module constant ROOMS): the
Computer Lab, the Chapel and the four numbered pool classrooms. -/
inductive Room where
  | computer_lab
  | chapel
  | classroom_2
  | classroom_4
  | classroom_5
  | classroom_6
deriving DecidableEq

/-- The four interchangeable pool rooms, in the fixed deterministic order the
source tries them (`get_available_regular_classroom`). -/
def regular_classrooms : List Room :=
  [Room.classroom_2, Room.classroom_4, Room.classroom_5, Room.classroom_6]

/-- One class record, after the out-of-scope CSV cleaning: the fields of the
cleaned dict that the scheduling core reads.  `units` is the result of the
Python parse `int(float(units))`: `none` when the parse raises (non-numeric
text), `some n` for the truncated integer value. -/
structure ClassInfo where
  name : String
  teacher : String
  courseName : String
  units : Option Int
  students : List String
deriving DecidableEq

/-- ClassScheduler.get_class_frequency: 4 meets once, 8 twice, 12 three times
a week; every other parsed value, and every parse failure, silently yields 1
(the `else: return 1  # Default` and the bare `except: return 1`). -/
def get_class_frequency (units : Option Int) : Nat :=
  match units with
  | some 4 => 1
  | some 8 => 2
  | some 12 => 3
  | some _ => 1
  | none => 1

/-- The module-level helper `get_class_frequency(units)` near the bottom of
app.py: a byte-for-byte duplicate of the method, with the same silent
default of 1. -/
def module_get_class_frequency (units : Option Int) : Nat :=
  match units with
  | some 4 => 1
  | some 8 => 2
  | some 12 => 3
  | some _ => 1
  | none => 1

/-- ClassScheduler.get_preferred_days: the ordered day-pattern preference
lists per weekly frequency.  The argument is an Int because the caller passes
`remaining_sessions_needed = frequency - manual_sessions_count`, a Python int
that the function matches with if/elif chains; any unmatched value falls to
the final `return [[Monday]]`. -/
def get_preferred_days (frequency : Int) : List (List Day) :=
  if frequency = 1 then
    [[Day.monday], [Day.tuesday], [Day.wednesday], [Day.thursday], [Day.friday]]
  else if frequency = 2 then
    [[Day.tuesday, Day.thursday],
     [Day.monday, Day.wednesday],
     [Day.monday, Day.friday],
     [Day.wednesday, Day.friday],
     [Day.monday, Day.tuesday],
     [Day.tuesday, Day.wednesday],
     [Day.wednesday, Day.thursday],
     [Day.thursday, Day.friday]]
  else if frequency = 3 then
    [[Day.monday, Day.wednesday, Day.friday],
     [Day.monday, Day.tuesday, Day.thursday],
     [Day.tuesday, Day.wednesday, Day.friday],
     [Day.monday, Day.tuesday, Day.wednesday],
     [Day.tuesday, Day.wednesday, Day.thursday],
     [Day.wednesday, Day.thursday, Day.friday]]
  else [[Day.monday]]

/-- ClassScheduler.get_option_priority_score: scores one (period, day-option)
candidate; core periods 2/4/5/6 highest, the preferred pattern for the
frequency adds 50, alternates 10. -/
def get_option_priority_score (period : Nat) (day_option : List Day) (frequency : Nat) : Int :=
  (if period = 2 ∨ period = 4 ∨ period = 5 ∨ period = 6 then 100
   else if period = 1 then 20
   else if period = 7 then 5
   else if period = 8 then 80
   else if period = 9 then 80
   else if period = 10 then 80
   else 0) +
  (if frequency = 2 ∧ day_option = [Day.tuesday, Day.thursday] then 50
   else if frequency = 3 ∧ day_option = [Day.monday, Day.wednesday, Day.friday] then 50
   else 10)

/-- Association list standing for a Python dict: insertion order is the list
order, and assignment to an existing key overwrites in place. -/
def lookupA {κ ν : Type} [DecidableEq κ] : List (κ × ν) → κ → Option ν
  | [], _ => none
  | e :: r, k => if k = e.fst then some e.snd else lookupA r k

/-- Dict assignment `m[k] = v`: overwrite in place, else append. -/
def insertA {κ ν : Type} [DecidableEq κ] : List (κ × ν) → κ → ν → List (κ × ν)
  | [], k, v => [(k, v)]
  | e :: r, k, v => if k = e.fst then (k, v) :: r else e :: insertA r k v

/-- Membership test `k in m` of a Python dict. -/
def memA {κ ν : Type} [DecidableEq κ] (m : List (κ × ν)) (k : κ) : Bool :=
  (lookupA m k).isSome

/-- `needle` is a prefix of `hay` (helper for the substring test below). -/
def listStartsWith {α : Type} [DecidableEq α] : List α → List α → Bool
  | _, [] => true
  | [], _ :: _ => false
  | a :: as, b :: bs => a = b && listStartsWith as bs

/-- `needle in hay` for strings, viewed as character lists: the Python
substring operator used for the course-category markers. -/
def listContainsSeq {α : Type} [DecidableEq α] : List α → List α → Bool
  | [], needle => needle.isEmpty
  | a :: t, needle => listStartsWith (a :: t) needle || listContainsSeq t needle

/-- Python `str.upper()` (the course names are ASCII). -/
def upperStr (s : String) : String :=
  String.mk (s.toList.map Char.toUpper)

/-- `marker in course_name.upper()`. -/
def courseContains (courseName marker : String) : Bool :=
  listContainsSeq (upperStr courseName).toList marker.toList

/-- One entry of ClassScheduler.check_conflicts: a teacher identity clash or
a nonempty student overlap (the Python dicts `type: teacher` and
`type: student` with the shared names). -/
inductive Conflict where
  | teacher (t : String)
  | student (shared : List String)
deriving DecidableEq

/-- The student intersection `students1.intersection(students2)` of
check_conflicts, as the sublist of the first list that occurs in the second
(nonempty exactly when the Python set intersection is nonempty). -/
def shared_students (c1 c2 : ClassInfo) : List String :=
  c1.students.filter (fun s => c2.students.contains s)

/-- ClassScheduler.check_conflicts: symmetric-in-content pure test between
two class records sharing a slot; a teacher conflict when the teacher fields
are equal, a student conflict when the enrollment lists intersect. -/
def check_conflicts (c1 c2 : ClassInfo) : List Conflict :=
  (if c1.teacher = c2.teacher then [Conflict.teacher c1.teacher] else []) ++
  (if shared_students c1 c2 ≠ [] then [Conflict.student (shared_students c1 c2)] else [])

/-- A manual day cell of one session row: the literal string Open, the
blank/None cell, or a weekday. -/
inductive DayVal where
  | open_
  | blank
  | day (d : Day)
deriving DecidableEq

/-- A manual period cell: Open, blank/None, an integer period, or any other
non-digit string (which the source treats as unspecified-but-not-Open). -/
inductive PeriodVal where
  | open_
  | blank
  | num (n : Nat)
  | other (s : String)
deriving DecidableEq

/-- A manual room cell: Open, TBD, one of the six known room names, or any
other string (the blank/None cell behaves exactly like `other ""` at every
use site and is folded into it). -/
inductive RoomVal where
  | open_
  | tbd
  | known (r : Room)
  | other (s : String)
deriving DecidableEq

/-- One row of `manual_session_assignments[class]`: the (day, period, room)
triple the administrator chose for one session index. -/
structure SessionAssign where
  day : DayVal
  period : PeriodVal
  room : RoomVal
deriving DecidableEq

/-- A value stored in `self.room_assignments[f"{day}_{period}_{class}"]`:
a concrete room display name, the TBD marker, or a raw unrecognized manual
string copied through. -/
inductive RoomAssign where
  | known (r : Room)
  | tbd
  | raw (s : String)
deriving DecidableEq

/-- A conflict string pushed into `conflicts_found` by can_schedule_class or
the pin conflict check: a class-against-class conflict, or one of the
room-availability failures. -/
inductive SlotConflict where
  | classConflict (kind : Conflict) (withClass : String)
  | roomUnavailable (r : Room)
  | noRegularClassroom
deriving DecidableEq

/-- One entry of `self.manual_conflicts` (the RejectedPin record): the class,
the requested slot, and the conflict reasons that blocked the pin. -/
structure ManualConflict where
  className : String
  day : Day
  period : Nat
  reasons : List SlotConflict
deriving DecidableEq

/-- One entry of `unscheduled_classes`: the class record plus the conflicts
accumulated over every candidate slot examined for it. -/
structure UnschedRecord where
  classInfo : ClassInfo
  conflicts : List SlotConflict
deriving DecidableEq

/-- Map-then-concatenate (the repeated `for ... : conflicts_found.append`
loops of the source). -/
def flm {α β : Type} (l : List α) (f : α → List β) : List β :=
  (l.map f).join

/-- The whole mutable scheduler state of one generate_schedule_internal run:
the grid, the two room books, the rejected-pin list, and the four
preference/bookkeeping dicts built by the manual pass. -/
structure SchedState where
  grid : Day → Nat → List ClassInfo
  room_assignments : List ((Day × Nat × String) × RoomAssign)
  assigned_rooms : List ((Day × Nat × Room) × String)
  manual_conflicts : List ManualConflict
  manually_scheduled : List (String × List Nat)
  room_prefs : List (String × List (Nat × RoomVal))
  period_prefs : List (String × List (Nat × Nat))
  day_prefs : List (String × List (Nat × Day))

/-- The empty state generate_schedule_internal starts from (fresh grid, all
books empty). -/
def initState : SchedState :=
  { grid := fun _ _ => []
    room_assignments := []
    assigned_rooms := []
    manual_conflicts := []
    manually_scheduled := []
    room_prefs := []
    period_prefs := []
    day_prefs := [] }

/-- `self.schedule[day][period].append(class_info)`. -/
def gridAppend (g : Day → Nat → List ClassInfo) (d : Day) (p : Nat) (c : ClassInfo) :
    Day → Nat → List ClassInfo :=
  fun d2 p2 => if d2 = d ∧ p2 = p then g d2 p2 ++ [c] else g d2 p2

/-- The full scheduler input of one run: the selected class records plus the
three caller-owned manual dicts (legacy room overrides, legacy period
overrides, and the per-session assignment rows). -/
structure SchedInput where
  classes : List ClassInfo
  manual_room_assignments : List (String × RoomVal)
  manual_period_assignments : List (String × Nat)
  manual_session_assignments : List (String × List SessionAssign)

/-- ClassScheduler.assign_room: manual override first (only the six known
names are recognized; anything else falls through), then the category rules:
GECO/GELA course markers give the Computer Lab, enrollments over 40 give the
Chapel, everything else is a pool-room request (`none` = the source string
regular_classroom). -/
def assign_room (inp : SchedInput) (c : ClassInfo) : Option Room :=
  match lookupA inp.manual_room_assignments c.name with
  | some (RoomVal.known r) => some r
  | _ =>
    if courseContains c.courseName "GECO" || courseContains c.courseName "GELA" then
      some Room.computer_lab
    else if c.students.length > 40 then
      some Room.chapel
    else
      none

/-- ClassScheduler.get_available_regular_classroom: the first pool room with
no ledger entry for this (day, period), in the fixed order. -/
def get_available_regular_classroom
    (rooms : List ((Day × Nat × Room) × String)) (d : Day) (p : Nat) : Option Room :=
  regular_classrooms.find? (fun r => (lookupA rooms (d, p, r)).isNone)

/-- The room type can_schedule_class and schedule_class derive from the
optional preferred room: a recognized room name is taken literally, `Open`
and every unrecognized or absent value fall back to assign_room (the
identical if/elif chains at the top of both functions). -/
def resolveRoomType (inp : SchedInput) (c : ClassInfo) (pref : Option RoomVal) : Option Room :=
  match pref with
  | some (RoomVal.known r) => some r
  | _ => assign_room inp c

/-- The per-slot class-conflict scan shared by can_schedule_class and the
manual-pin conflict check (`for existing_class in self.schedule[day][period]:
... conflicts_found.append(...)`). -/
def slotClassConflicts (g : Day → Nat → List ClassInfo) (c : ClassInfo) (d : Day) (p : Nat) :
    List SlotConflict :=
  flm (g d p) (fun e => (check_conflicts c e).map (fun k => SlotConflict.classConflict k e.name))

/-- The room-availability part of can_schedule_class for one day: a fixed
room checks its single ledger key, a pool request checks that some pool room
is free. -/
def roomAvailConflicts (rooms : List ((Day × Nat × Room) × String)) (rt : Option Room)
    (d : Day) (p : Nat) : List SlotConflict :=
  match rt with
  | some r => if memA rooms (d, p, r) then [SlotConflict.roomUnavailable r] else []
  | none =>
    if (get_available_regular_classroom rooms d p).isNone then
      [SlotConflict.noRegularClassroom]
    else []

/-- ClassScheduler.can_schedule_class: for every day of the day option,
collect class conflicts against the current grid slot and the room
availability failures; feasible iff nothing was collected.  `rooms` is the
`assigned_rooms` dict argument (the manual pass passes a fresh empty dict in
its period/day searches, the auto search passes the live ledger). -/
def can_schedule_class (inp : SchedInput) (g : Day → Nat → List ClassInfo)
    (c : ClassInfo) (day_option : List Day) (period : Nat)
    (rooms : List ((Day × Nat × Room) × String)) (pref : Option RoomVal) :
    Bool × List SlotConflict :=
  let rt := resolveRoomType inp c pref
  let conflicts := flm day_option (fun d =>
    slotClassConflicts g c d period ++ roomAvailConflicts rooms rt d period)
  (conflicts.isEmpty, conflicts)

/-- The body of the `for day in day_option:` loop of
ClassScheduler.schedule_class: append the class to the slot, then reserve the
resolved room in both books (for a pool request, the first free pool room; if
none is free the source assigns no room at all for that day). -/
def reserveDay (rt : Option Room) (c : ClassInfo) (p : Nat) (st : SchedState) (d : Day) :
    SchedState :=
  match rt with
  | some r =>
    { st with
      grid := gridAppend st.grid d p c
      assigned_rooms := insertA st.assigned_rooms (d, p, r) c.name
      room_assignments := insertA st.room_assignments (d, p, c.name) (RoomAssign.known r) }
  | none =>
    match get_available_regular_classroom st.assigned_rooms d p with
    | some r =>
      { st with
        grid := gridAppend st.grid d p c
        assigned_rooms := insertA st.assigned_rooms (d, p, r) c.name
        room_assignments := insertA st.room_assignments (d, p, c.name) (RoomAssign.known r) }
    | none => { st with grid := gridAppend st.grid d p c }

/-- ClassScheduler.schedule_class: commit the class on every day of the day
option at the given period, reserving rooms day by day. -/
def schedule_class (inp : SchedInput) (st : SchedState) (c : ClassInfo)
    (day_option : List Day) (period : Nat) (pref : Option RoomVal) : SchedState :=
  day_option.foldl (reserveDay (resolveRoomType inp c pref) c period) st

/-- `is_day_specified`: the day cell holds a real weekday (`not in
['Open', '', None]`; only weekday strings otherwise reach the engine). -/
def isDaySpecified : DayVal → Bool
  | DayVal.day _ => true
  | _ => false

/-- `is_period_specified`: the period cell is a digit value (`not in
['Open', '', None] and str(...).isdigit()`). -/
def isPeriodSpecified : PeriodVal → Bool
  | PeriodVal.num _ => true
  | _ => false

/-- `manually_scheduled_sessions[class_name].add(session_index)` (the entry
was created as an empty set when the class started processing). -/
def addScheduledIndex (l : List (String × List Nat)) (name : String) (i : Nat) :
    List (String × List Nat) :=
  match lookupA l name with
  | some s => insertA l name (if s.contains i then s else s ++ [i])
  | none => insertA l name [i]

/-- The room bookkeeping of a successful manual placement (lines after
`SUCCESS: Added ...` in generate_schedule_internal): a recognized manual room
name goes into both books with no availability check; an unrecognized manual
string is copied raw into room_assignments only; Open/TBD fall back to
assign_room, a pool request taking the first free pool room and marking the
class TBD when none is free. -/
def pinRoomBookkeeping (inp : SchedInput) (st : SchedState) (c : ClassInfo)
    (d : Day) (p : Nat) (room : RoomVal) : SchedState :=
  match room with
  | RoomVal.known r =>
    { st with
      room_assignments := insertA st.room_assignments (d, p, c.name) (RoomAssign.known r)
      assigned_rooms := insertA st.assigned_rooms (d, p, r) c.name }
  | RoomVal.other s =>
    { st with
      room_assignments := insertA st.room_assignments (d, p, c.name) (RoomAssign.raw s) }
  | _ =>
    match assign_room inp c with
    | some r =>
      { st with
        room_assignments := insertA st.room_assignments (d, p, c.name) (RoomAssign.known r)
        assigned_rooms := insertA st.assigned_rooms (d, p, r) c.name }
    | none =>
      match get_available_regular_classroom st.assigned_rooms d p with
      | some r =>
        { st with
          room_assignments := insertA st.room_assignments (d, p, c.name) (RoomAssign.known r)
          assigned_rooms := insertA st.assigned_rooms (d, p, r) c.name }
      | none =>
        { st with
          room_assignments := insertA st.room_assignments (d, p, c.name) RoomAssign.tbd }

/-- `manually_scheduled_sessions[class_name].add(session_index)` applied to
the whole state. -/
def markScheduled (st : SchedState) (name : String) (i : Nat) : SchedState :=
  { st with manually_scheduled := addScheduledIndex st.manually_scheduled name i }

/-- The shared manual-placement block of generate_schedule_internal (the
conflict check followed by `self.schedule[day][period].append`): if any
teacher or student conflict exists against the slot, record the rejected pin
and leave the grid untouched; otherwise place, book the room, and mark the
session index as manually scheduled. -/
def placePinned (inp : SchedInput) (st : SchedState) (c : ClassInfo)
    (d : Day) (p : Nat) (room : RoomVal) (sidx : Nat) : SchedState :=
  if slotClassConflicts st.grid c d p ≠ [] then
    { st with manual_conflicts := st.manual_conflicts ++
        [{ className := c.name, day := d, period := p,
           reasons := slotClassConflicts st.grid c d p }] }
  else
    markScheduled
      (pinRoomBookkeeping inp { st with grid := gridAppend st.grid d p c } c d p room)
      c.name sidx

/-- The period candidates of the day-specified/period-Open manual search
(`available_periods = [1, 2, 4, 5, 6, 7, 8, 9, 10, 11]`). -/
def manualSearchPeriods : List Nat := [1, 2, 4, 5, 6, 7, 8, 9, 10, 11]

/-- Day fixed, period Open: the first period whose slot is empty and where
can_schedule_class (with a fresh empty room dict) succeeds. -/
def findManualPeriod (inp : SchedInput) (st : SchedState) (c : ClassInfo) (d : Day) :
    Option Nat :=
  manualSearchPeriods.find? (fun tp =>
    (st.grid d tp).isEmpty && (can_schedule_class inp st.grid c [d] tp [] none).fst)

/-- Period fixed, day Open: the first day whose slot is empty and where
can_schedule_class (with a fresh empty room dict) succeeds. -/
def findManualDay (inp : SchedInput) (st : SchedState) (c : ClassInfo) (p : Nat) :
    Option Day :=
  DAYS.find? (fun td =>
    (st.grid td p).isEmpty && (can_schedule_class inp st.grid c [td] p [] none).fst)

/-- `manual_room_preferences[class_name][session_index] = room_value`. -/
def addPref {ν : Type} (l : List (String × List (Nat × ν))) (name : String)
    (i : Nat) (v : ν) : List (String × List (Nat × ν)) :=
  match lookupA l name with
  | some prefs => insertA l name (insertA prefs i v)
  | none => insertA l name [(i, v)]

/-- One session row of the manual pass (the body of the
`for session_index, session in enumerate(sessions):` loop): a fully or
partially specified row is placed through placePinned (searching a period or
a day first when only one is given; an unplaceable search, or a day cell that
is blank rather than Open next to a fixed period, is silently skipped); an
unspecified row records preferences only.  The period- and day-preference
conditions are written exactly as in the source; inside this branch the
period is never a digit and the day is never a weekday, so only room
preferences can actually be recorded. -/
def processSession (inp : SchedInput) (name : String) (c : ClassInfo)
    (st : SchedState) (sidx : Nat) (s : SessionAssign) : SchedState :=
  if isDaySpecified s.day || isPeriodSpecified s.period then
    match s.day, s.period with
    | DayVal.day d, PeriodVal.num p => placePinned inp st c d p s.room sidx
    | DayVal.day d, PeriodVal.open_ =>
      match findManualPeriod inp st c d with
      | some tp => placePinned inp st c d tp s.room sidx
      | none => st
    | DayVal.day d, PeriodVal.blank =>
      match findManualPeriod inp st c d with
      | some tp => placePinned inp st c d tp s.room sidx
      | none => st
    | DayVal.open_, PeriodVal.num p =>
      match findManualDay inp st c p with
      | some td => placePinned inp st c td p s.room sidx
      | none => st
    | _, _ => st
  else
    let st2 :=
      if s.room ≠ RoomVal.open_ ∧ s.room ≠ RoomVal.tbd then
        { st with room_prefs := addPref st.room_prefs name sidx s.room }
      else st
    let st3 :=
      if s.day = DayVal.open_ ∧ isPeriodSpecified s.period then
        match s.period with
        | PeriodVal.num p => { st2 with period_prefs := addPref st2.period_prefs name sidx p }
        | _ => st2
      else st2
    if (s.period = PeriodVal.open_ ∨ s.period = PeriodVal.blank) ∧ isDaySpecified s.day then
      match s.day with
      | DayVal.day d => { st3 with day_prefs := addPref st3.day_prefs name sidx d }
      | _ => st3
    else st3

/-- The indexed fold over one class's session rows. -/
def processSessionsIdx (inp : SchedInput) (name : String) (c : ClassInfo) :
    SchedState → Nat → List SessionAssign → SchedState
  | st, _, [] => st
  | st, i, s :: rest =>
    processSessionsIdx inp name c (processSession inp name c st i s) (i + 1) rest

/-- One class of the manual pass: look the record up by name (a missing
record is skipped), create its empty manually-scheduled set, and process its
session rows in order. -/
def processClassAssignments (inp : SchedInput) (st : SchedState)
    (entry : String × List SessionAssign) : SchedState :=
  match inp.classes.find? (fun cls => cls.name = entry.fst) with
  | none => st
  | some c =>
    let st2 := { st with manually_scheduled := insertA st.manually_scheduled entry.fst [] }
    processSessionsIdx inp entry.fst c st2 0 entry.snd

/-- `filtered_session_assignments`: only rows whose class is among the
selected classes. -/
def filteredAssignments (inp : SchedInput) : List (String × List SessionAssign) :=
  inp.manual_session_assignments.filter
    (fun pr => (inp.classes.map (fun c => c.name)).contains pr.fst)

/-- The whole manual pass of generate_schedule_internal, from the fresh empty
state. -/
def manualPass (inp : SchedInput) : SchedState :=
  (filteredAssignments inp).foldl (processClassAssignments inp) initState

/-- The result dict of analyze_manual_session_pattern: the three merged raw
columns plus the four derived hints. -/
structure ManualPattern where
  manual_days : List (Option DayVal)
  manual_periods : List (Option PeriodVal)
  manual_rooms : List (Option RoomVal)
  inferred_days : Option (List Day)
  preferred_period : Option PeriodVal
  preferred_room : Option RoomVal
  preferred_day : Option DayVal

/-- The pattern for a class with no manual rows at all (the early return). -/
def emptyPattern : ManualPattern :=
  { manual_days := []
    manual_periods := []
    manual_rooms := []
    inferred_days := none
    preferred_period := none
    preferred_room := none
    preferred_day := none }

/-- `while len(list) <= i: append(None)` followed by `list[i] = v` (the
extend-then-set idiom of the three preference merge loops). -/
def setExtendSet {α : Type} (l : List (Option α)) (i : Nat) (v : α) : List (Option α) :=
  (l ++ List.replicate (i + 1 - l.length) none).set i (some v)

/-- Merge one preference dict (index, value pairs in insertion order) into a
raw pattern column. -/
def mergePrefs {α : Type} (base : List (Option α)) (prefs : List (Nat × α)) :
    List (Option α) :=
  prefs.foldl (fun l pr => setExtendSet l pr.fst pr.snd) base

/-- `d != 'Open' and d is not None` (a blank string would be kept; it can
never reach these columns). -/
def dayKept : Option DayVal → Bool
  | none => false
  | some DayVal.open_ => false
  | some _ => true

/-- `p != 'Open' and p is not None`. -/
def periodKept : Option PeriodVal → Bool
  | none => false
  | some PeriodVal.open_ => false
  | some _ => true

/-- `r and r != 'Open'`: Python truthiness drops None and blank strings,
keeps TBD, room names and other nonempty strings. -/
def roomKept : Option RoomVal → Bool
  | none => false
  | some RoomVal.open_ => false
  | some RoomVal.tbd => true
  | some (RoomVal.known _) => true
  | some (RoomVal.other s) => !s.isEmpty

/-- The head of the filtered column (`filtered[0]` guarded by
`if filtered:`). -/
def firstKept {α : Type} (keep : Option α → Bool) (l : List (Option α)) : Option α :=
  match (l.filter keep).head? with
  | some v => v
  | none => none

/-- The kept day cells as plain values, for the inference chain. -/
def keptDayVals (l : List (Option DayVal)) : List DayVal :=
  l.filterMap (fun v =>
    match v with
    | some DayVal.open_ => none
    | some w => some w
    | none => none)

/-- The 8-credit inference: one manual day known, name the single remaining
preferred partner day. -/
def inferTwo (md : List DayVal) : Option (List Day) :=
  if md.contains (DayVal.day Day.monday) then some [Day.wednesday]
  else if md.contains (DayVal.day Day.tuesday) then some [Day.thursday]
  else if md.contains (DayVal.day Day.wednesday) then some [Day.monday]
  else if md.contains (DayVal.day Day.thursday) then some [Day.tuesday]
  else if md.contains (DayVal.day Day.friday) then some [Day.monday]
  else none

/-- The M/W/F pattern as day cells. -/
def mwfVals : List DayVal :=
  [DayVal.day Day.monday, DayVal.day Day.wednesday, DayVal.day Day.friday]

/-- The T/W/Th pattern as day cells. -/
def twthVals : List DayVal :=
  [DayVal.day Day.tuesday, DayVal.day Day.wednesday, DayVal.day Day.thursday]

/-- The 12-credit inference: complete a recognized M/W/F or T/W/Th pattern
from one or two pinned days.  The source builds the remainder with Python set
differences whose element order is unspecified (string sets); the remainder
is canonicalized here to weekday order, and where the difference has a single
element (every recognized-pattern case) the two agree exactly. -/
def inferThree (md : List DayVal) : Option (List Day) :=
  let used := md.dedup
  if used.length = 1 then
    if used.contains (DayVal.day Day.monday) then some [Day.wednesday, Day.friday]
    else if used.contains (DayVal.day Day.wednesday) then some [Day.monday, Day.friday]
    else if used.contains (DayVal.day Day.friday) then some [Day.monday, Day.wednesday]
    else if used.contains (DayVal.day Day.tuesday) then some [Day.wednesday, Day.thursday]
    else if used.contains (DayVal.day Day.thursday) then some [Day.tuesday, Day.wednesday]
    else none
  else if used.length = 2 then
    if used.all (fun v => mwfVals.contains v) then
      some ([Day.monday, Day.wednesday, Day.friday].filter
        (fun d => !(used.contains (DayVal.day d))))
    else if used.all (fun v => twthVals.contains v) then
      some ([Day.tuesday, Day.wednesday, Day.thursday].filter
        (fun d => !(used.contains (DayVal.day d))))
    else
      some ((DAYS.filter (fun d => !(used.contains (DayVal.day d)))).take 1)
  else none

/-- `if manual_days and total_frequency > len(manual_days):` dispatching on
the frequency. -/
def analyzeInferred (md : List DayVal) (freq : Nat) : Option (List Day) :=
  if md ≠ [] ∧ (md.length : Int) < (freq : Int) then
    if freq = 2 then inferTwo md
    else if freq = 3 then inferThree md
    else none
  else none

/-- ClassScheduler.analyze_manual_session_pattern: collect the raw cells of
the manually scheduled session indices, merge in the three preference dicts,
then derive the preferred period/room/day (first kept cell) and the inferred
remaining day pattern. -/
def analyze_manual_session_pattern (inp : SchedInput) (st : SchedState)
    (name : String) (freq : Nat) : ManualPattern :=
  match lookupA inp.manual_session_assignments name with
  | none => emptyPattern
  | some sessions =>
    let scheduled := (lookupA st.manually_scheduled name).getD []
    let baseDays : List (Option DayVal) :=
      (sessions.enum.filter (fun pr => scheduled.contains pr.fst)).map
        (fun pr => some pr.snd.day)
    let basePeriods : List (Option PeriodVal) :=
      (sessions.enum.filter (fun pr => scheduled.contains pr.fst)).map
        (fun pr => some pr.snd.period)
    let baseRooms : List (Option RoomVal) :=
      (sessions.enum.filter (fun pr => scheduled.contains pr.fst)).map
        (fun pr => some pr.snd.room)
    let mr := mergePrefs baseRooms ((lookupA st.room_prefs name).getD [])
    let mp := mergePrefs basePeriods
      (((lookupA st.period_prefs name).getD []).map (fun pr => (pr.fst, PeriodVal.num pr.snd)))
    let mdv := mergePrefs baseDays
      (((lookupA st.day_prefs name).getD []).map (fun pr => (pr.fst, DayVal.day pr.snd)))
    { manual_days := mdv
      manual_periods := mp
      manual_rooms := mr
      inferred_days := analyzeInferred (keptDayVals mdv) freq
      preferred_period := firstKept periodKept mp
      preferred_room := firstKept roomKept mr
      preferred_day := firstKept dayKept mdv }

/-- The period hint the `elif manual_pattern['preferred_period']:` branch
acts on.  The hint value reaching this branch is always a Python int (session
period cells are digits and the period-preference dict is provably never
populated), so the truthy values are exactly the nonzero numeric cells. -/
def ppHintNat : Option PeriodVal → Option Nat
  | some (PeriodVal.num n) => if n ≠ 0 then some n else none
  | _ => none

/-- `manual_pattern['preferred_period'] == period` (an int comparison; any
non-numeric stored cell compares unequal). -/
def ppMatchesPeriod : Option PeriodVal → Nat → Bool
  | some (PeriodVal.num n), p => n == p
  | _, _ => false

/-- The period tier list of generate_schedule_internal: a legacy manual
period pins the single tier; a preferred-period hint goes first, followed by
the core/early/last-resort tiers with the hint removed; otherwise the
aggressive (strict core first) or flexible (early and Period 7 mixed) tiers.
Empty tiers are dropped, as in the source list comprehensions. -/
def period_groups_for (legacy : Option Nat) (pp : Option PeriodVal)
    (use_p7 aggressive : Bool) : List (List Nat) :=
  match legacy with
  | some mp => [[mp]]
  | none =>
    match ppHintNat pp with
    | some n =>
      (([[n]] : List (List Nat)) ++
        (([[2, 4, 5, 6], [1]] : List (List Nat)) ++ [if use_p7 then [7] else []]).map
          (fun (g : List Nat) => g.filter (fun q => q ≠ n))).filter (fun g => g ≠ [])
    | none =>
      if aggressive then
        ([[2, 4, 5, 6], [1]] ++ [if use_p7 then [7] else []]).filter (fun g => g ≠ [])
      else
        ([[2, 4, 5, 6]] ++ [if use_p7 then [1, 7] else [1]]).filter (fun g => g ≠ [])

/-- `manually_used_days`: the real weekdays of this class's manually
scheduled session rows (Open cells excluded), as a set. -/
def manualUsedDays (inp : SchedInput) (st : SchedState) (name : String) : List Day :=
  match lookupA inp.manual_session_assignments name with
  | none => []
  | some sessions =>
    ((lookupA st.manually_scheduled name).getD []).foldl (fun acc i =>
      match sessions.get? i with
      | some s =>
        match s.day with
        | DayVal.day d => if acc.contains d then acc else acc ++ [d]
        | _ => acc
      | none => acc) []

/-- The base day-option list for one class of the auto phase: the inferred
pattern first when present and nonempty, then the preference list for the
remaining session count (minus the inferred pattern). -/
def day_options_base (pat : ManualPattern) (remaining : Int) : List (List Day) :=
  match pat.inferred_days with
  | some inf =>
    if inf ≠ [] then [inf] ++ (get_preferred_days remaining).filter (fun o => o ≠ inf)
    else get_preferred_days remaining
  | none => get_preferred_days remaining

/-- The day-option list for one class of the auto phase: the base list; when
the class has manual rows, each option is additionally stripped of the
manually used days and kept only if exactly the remaining count survives
(falling back to the unstripped list when nothing survives). -/
def day_options_for (inp : SchedInput) (st : SchedState) (name : String)
    (pat : ManualPattern) (remaining : Int) : List (List Day) :=
  if memA st.manually_scheduled name then
    let filtered := (day_options_base pat remaining).filterMap (fun opt =>
      let av := opt.filter (fun d => !((manualUsedDays inp st name).contains d))
      if (av.length : Int) = remaining then some av else none)
    if filtered ≠ [] then filtered else day_options_base pat remaining
  else day_options_base pat remaining

/-- The outcome of the candidate loop for one class: an immediate core-tier
commitment, a remembered best fallback committed after the loop, or no
feasible slot at all (with the accumulated conflicts). -/
inductive SearchResult where
  | committed (p : Nat) (opt : List Day)
  | viaFallback (p : Nat) (opt : List Day)
  | unplaced (conflicts : List SlotConflict)
deriving DecidableEq

/-- `period in [2, 4, 5, 6] or has_manual_period or
manual_pattern['preferred_period'] == period`. -/
def immediateCommit (has_manual : Bool) (pp : Option PeriodVal) (p : Nat) : Bool :=
  [2, 4, 5, 6].contains p || has_manual || ppMatchesPeriod pp p

/-- The fallback-option update of the candidate loop: remember the candidate
when there is no remembered option yet or its priority score is strictly
better. -/
def updateBest (best : Option (Nat × List Day × Int)) (p : Nat) (opt : List Day)
    (sc : Int) : Option (Nat × List Day × Int) :=
  match best with
  | none => some (p, opt, sc)
  | some b => if sc > b.snd.snd then some (p, opt, sc) else some b

/-- The flattened candidate loop of generate_schedule_internal (tier by tier,
period by period, day option by day option, exactly the nesting order of the
three Python loops): a feasible candidate in the immediate-commit set ends
the search; a feasible candidate elsewhere is remembered when it beats the
current best fallback score; an infeasible candidate adds its conflicts. -/
def searchGo (inp : SchedInput) (st : SchedState) (c : ClassInfo)
    (pref : Option RoomVal) (has_manual : Bool) (pp : Option PeriodVal) (freq : Nat) :
    List (Nat × List Day) → Option (Nat × List Day × Int) → List SlotConflict →
    SearchResult
  | [], best, confs =>
    match best with
    | some b => SearchResult.viaFallback b.fst b.snd.fst
    | none => SearchResult.unplaced confs
  | cand :: rest, best, confs =>
    if (can_schedule_class inp st.grid c cand.snd cand.fst st.assigned_rooms pref).fst then
      if immediateCommit has_manual pp cand.fst then
        SearchResult.committed cand.fst cand.snd
      else
        searchGo inp st c pref has_manual pp freq rest
          (updateBest best cand.fst cand.snd (get_option_priority_score cand.fst cand.snd freq))
          confs
    else
      searchGo inp st c pref has_manual pp freq rest best
        (confs ++ (can_schedule_class inp st.grid c cand.snd cand.fst st.assigned_rooms pref).snd)

/-- The candidate list in loop order: for each tier, for each period of the
tier, for each day option. -/
def allCandidates (groups : List (List Nat)) (dayOpts : List (List Day)) :
    List (Nat × List Day) :=
  flm groups (fun g => flm g (fun p => dayOpts.map (fun opt => (p, opt))))

/-- ClassScheduler.class_priority (the sort key of the auto phase). -/
def class_priority (inp : SchedInput) (c : ClassInfo) : Int :=
  (if memA inp.manual_period_assignments c.name then 10000 else 0) +
  (if courseContains c.courseName "GECO" || courseContains c.courseName "GELA" then 2000
   else 0) +
  (if c.students.length > 40 then 2000 else 0) +
  (c.students.length : Int) * 10 +
  (get_class_frequency c.units : Int) * 100

/-- Stable descending insertion: a new element goes before the first strictly
smaller key, after equal keys seen so far. -/
def insertDesc {α : Type} (key : α → Int) (a : α) : List α → List α
  | [] => [a]
  | b :: bs => if key b ≤ key a then a :: b :: bs else b :: insertDesc key a bs

/-- `sorted(classes, key=class_priority, reverse=True)`: any stable sort by
the same key produces the same list, so a stable insertion sort stands in for
timsort. -/
def sortDesc {α : Type} (key : α → Int) (l : List α) : List α :=
  l.foldr (insertDesc key) []

/-- One class of the auto phase: skip when all sessions are manual, otherwise
analyze the pattern, build day options and period tiers, run the candidate
loop, and either commit the winning candidate through schedule_class or
record the class as unscheduled. -/
def scheduleOneClass (inp : SchedInput) (use_p7 aggressive : Bool)
    (acc : SchedState × List UnschedRecord) (c : ClassInfo) :
    SchedState × List UnschedRecord :=
  let st := acc.fst
  let freq := get_class_frequency c.units
  let manualCount := ((lookupA st.manually_scheduled c.name).getD []).length
  let remaining : Int := (freq : Int) - (manualCount : Int)
  if remaining ≤ 0 then acc
  else
    let pat := analyze_manual_session_pattern inp st c.name freq
    let dayOpts := day_options_for inp st c.name pat remaining
    let groups := period_groups_for (lookupA inp.manual_period_assignments c.name)
      pat.preferred_period use_p7 aggressive
    match searchGo inp st c pat.preferred_room (memA inp.manual_period_assignments c.name)
        pat.preferred_period freq (allCandidates groups dayOpts) none [] with
    | SearchResult.committed p opt => (schedule_class inp st c opt p pat.preferred_room, acc.snd)
    | SearchResult.viaFallback p opt => (schedule_class inp st c opt p pat.preferred_room, acc.snd)
    | SearchResult.unplaced confs => (st, acc.snd ++ [{ classInfo := c, conflicts := confs }])

/-- The scheduled-instance scan of apply_room_preferences: every (day,
period) holding this class, in grid iteration order. -/
def scheduledInstances (st : SchedState) (name : String) : List (Day × Nat) :=
  flm DAYS (fun d => flm PERIODS_ALL (fun p =>
    flm (st.grid d p) (fun e => if e.name = name then [(d, p)] else [])))

/-- The raw preference value written into room_assignments by
apply_room_preferences (recognized names as rooms, anything else copied
through; Open/TBD cannot be stored as preferences). -/
def roomValToAssign : RoomVal → RoomAssign
  | RoomVal.known r => RoomAssign.known r
  | RoomVal.open_ => RoomAssign.raw "Open"
  | RoomVal.tbd => RoomAssign.raw "TBD"
  | RoomVal.other s => RoomAssign.raw s

/-- One (session index, preferred room) entry: overwrite the room of the
matching scheduled instance, with no availability check. -/
def applyPrefEntry (st : SchedState) (name : String) (instances : List (Day × Nat))
    (pr : Nat × RoomVal) : SchedState :=
  match instances.get? pr.fst with
  | some dp =>
    { st with room_assignments :=
        insertA st.room_assignments (dp.fst, dp.snd, name) (roomValToAssign pr.snd) }
  | none => st

/-- ClassScheduler.apply_room_preferences: for every class with stored room
preferences, map its preference indices onto its scheduled instances and
overwrite their rooms. -/
def apply_room_preferences (st : SchedState) : SchedState :=
  st.room_prefs.foldl (fun acc entry =>
    let instances := scheduledInstances acc entry.fst
    entry.snd.foldl (fun a pr => applyPrefEntry a entry.fst instances pr) acc) st

/-- ClassScheduler.generate_schedule_internal: the manual pass from a fresh
state, then the auto phase over the classes in descending priority order,
then the room-preference overwrite.  Returns the final state and the
unscheduled records; the Python success flag is `unscheduled = []`. -/
def generate_schedule_internal (inp : SchedInput) (use_p7 aggressive : Bool) :
    SchedState × List UnschedRecord :=
  let st1 := manualPass inp
  let sorted := sortDesc (class_priority inp) inp.classes
  let res := sorted.foldl (scheduleOneClass inp use_p7 aggressive) (st1, [])
  (apply_room_preferences res.fst, res.snd)

/-- One configuration of the multi-approach orchestrator (the `use_p7` and
`aggressive_core` flags of one entry of the `approaches` list). -/
structure Approach where
  use_p7 : Bool
  aggressive : Bool
deriving DecidableEq

/-- The ordered approach list of generate_schedule: the two no-Period-7
configurations, two more with Period 7 when the caller allows it, and always
the maximally permissive fallback last. -/
def approachesFor (use_period_7 : Bool) : List Approach :=
  [{ use_p7 := false, aggressive := true }, { use_p7 := false, aggressive := false }] ++
  (if use_period_7 then
    [{ use_p7 := true, aggressive := true }, { use_p7 := true, aggressive := false }]
   else []) ++
  [{ use_p7 := true, aggressive := false }]

/-- One full resolver-plus-search run under one configuration (the state is
reset before each attempt, so every attempt is this same pure function). -/
def runApproach (inp : SchedInput) (a : Approach) : SchedState × List UnschedRecord :=
  generate_schedule_internal inp a.use_p7 a.aggressive

/-- The per-period session count of evaluate_solution_quality. -/
def period_usage (st : SchedState) (p : Nat) : Nat :=
  (DAYS.map (fun d => (st.grid d p).length)).sum

/-- ClassScheduler.evaluate_solution_quality: reward core periods, penalize
Period 1, Period 7 and Period 7b, mildly reward the special-teacher
periods 8, 9 and 10. -/
def evaluate_solution_quality (st : SchedState) : Int :=
  (period_usage st 2 : Int) * 10 + (period_usage st 4 : Int) * 10 +
  (period_usage st 5 : Int) * 10 + (period_usage st 6 : Int) * 10 -
  (period_usage st 1 : Int) * 5 - (period_usage st 7 : Int) * 20 -
  (period_usage st 11 : Int) * 10 + (period_usage st 8 : Int) * 8 +
  (period_usage st 9 : Int) * 8 + (period_usage st 10 : Int) * 8

/-- `total_scheduled`: the number of placed session instances, summed over
every slot of the grid. -/
def totalScheduled (st : SchedState) : Nat :=
  (DAYS.map (fun d => (PERIODS_ALL.map (fun p => (st.grid d p).length)).sum)).sum

/-- The first orchestrator loop: keep the highest-scoring run that placed
every class (strict improvement, so the earliest run wins ties).  The
source's "corrected solution" branch - taken when the success flag is false
but the unscheduled list is empty - is unreachable, because the internal run
returns success exactly when that list is empty. -/
def pickComplete (inp : SchedInput) (approachList : List Approach) :
    Option (SchedState × Int) :=
  approachList.foldl (fun best a =>
    let r := runApproach inp a
    if r.snd = [] then
      let s := evaluate_solution_quality r.fst
      match best with
      | none => some (r.fst, s)
      | some b => if s > b.snd then some (r.fst, s) else some b
    else best) none

/-- The "ensure the fallback completes" block: when no complete solution was
kept, re-run the final (fallback) approach and keep it if it places every
class.  The re-run is the same pure function, so this block never changes
the outcome; it is embedded because the source executes it. -/
def bestComplete (inp : SchedInput) (use_period_7 : Bool) : Option (SchedState × Int) :=
  match pickComplete inp (approachesFor use_period_7) with
  | some b => some b
  | none =>
    match (approachesFor use_period_7).getLast? with
    | some fb =>
      let r := runApproach inp fb
      if r.snd = [] then some (r.fst, evaluate_solution_quality r.fst) else none
    | none => none

/-- The accumulator of the best-partial-solution loop: the running minimum
unscheduled count, its adjusted score, the kept run, and the last run seen
(whose state and unscheduled list the source falls back to when no run
scheduled anything). -/
structure IncompleteSel where
  minU : Int
  bestScore : Int
  best : Option (SchedState × List UnschedRecord)
  lastU : List UnschedRecord
  lastSt : SchedState

/-- One iteration of the best-partial loop: runs with nothing scheduled are
skipped entirely; otherwise the run is kept when it strictly lowers the
unscheduled count, or ties it with a strictly better adjusted score
(score + 50 per placed instance - 100 per unscheduled class). -/
def selectIncompleteStep (inp : SchedInput) (acc : IncompleteSel) (a : Approach) :
    IncompleteSel :=
  let r := runApproach inp a
  let total := totalScheduled r.fst
  let acc2 := { acc with lastU := r.snd, lastSt := r.fst }
  if total > 0 then
    let adjusted := evaluate_solution_quality r.fst + (total : Int) * 50 -
      (r.snd.length : Int) * 100
    if (r.snd.length : Int) < acc2.minU ∨
        ((r.snd.length : Int) = acc2.minU ∧ adjusted > acc2.bestScore) then
      { acc2 with minU := (r.snd.length : Int), bestScore := adjusted, best := some r }
    else acc2
  else acc2

/-- The best-partial-solution loop over all approaches, with the source's
initial sentinels 999999 and -999999. -/
def selectIncomplete (inp : SchedInput) (approachList : List Approach) : IncompleteSel :=
  approachList.foldl (selectIncompleteStep inp)
    { minU := 999999, bestScore := -999999, best := none, lastU := [], lastSt := initState }

/-- `len(best_partial['unscheduled']) <= len(self.classes) * 0.1`.  The
source compares against the float product `n * 0.1`; since the stored double
nearest 0.1 exceeds one tenth, the correctly rounded product never falls
below an integer n/10 and stays well below the next integer otherwise, so
the comparison agrees with the exact rational test used here. -/
def acceptIncomplete (unscheduledCount totalClasses : Nat) : Bool :=
  10 * unscheduledCount ≤ totalClasses

/-- The outward result of one orchestrator run: the success flag, the
reported unscheduled list, and the schedule state left in the scheduler. -/
structure SchedOutcome where
  success : Bool
  unscheduled : List UnschedRecord
  state : SchedState

/-- ClassScheduler.generate_schedule: use the best complete solution if any
approach produced one; otherwise select the best partial solution and accept
it exactly when its unscheduled count is within the ten-percent fraction,
reporting failure with that run's full unscheduled list otherwise; when every
run scheduled nothing at all, report failure with the last run's list. -/
def generate_schedule (inp : SchedInput) (use_period_7 : Bool) : SchedOutcome :=
  match bestComplete inp use_period_7 with
  | some b => { success := true, unscheduled := [], state := b.fst }
  | none =>
    let sel := selectIncomplete inp (approachesFor use_period_7)
    match sel.best with
    | some bp =>
      if acceptIncomplete bp.snd.length inp.classes.length then
        { success := true, unscheduled := [], state := bp.fst }
      else
        { success := false, unscheduled := bp.snd, state := bp.fst }
    | none => { success := false, unscheduled := sel.lastU, state := sel.lastSt }

/-- A manual period cell is inside the grid key range 1..11. -/
def periodCellValid : PeriodVal → Bool
  | PeriodVal.num n => decide (1 ≤ n) && decide (n ≤ 11)
  | _ => true

/-- Well-formed manual input: every digit period cell and every legacy manual
period names an existing grid key 1..11.  On inputs outside this set the
Python scheduler raises KeyError instead of producing a schedule, so the
run-shaped claims are stated under this hypothesis. -/
def validPeriods (inp : SchedInput) : Prop :=
  (∀ pr ∈ inp.manual_session_assignments, ∀ s ∈ pr.snd, periodCellValid s.period = true) ∧
  ∀ pr ∈ inp.manual_period_assignments, 1 ≤ pr.snd ∧ pr.snd ≤ 11

/-- One entry of a `current_schedule` slot list: the fields of the session
dict that move_class and get_valid_slots read (class name, resolved room,
optional sessionIndex metadata). -/
structure MSession where
  className : String
  room : RoomVal
  sessionIndex : Option Nat
deriving DecidableEq

/-- The in-process globals the interactive move endpoints read and write:
the uploaded class records, the selected-class list, the generated schedule
(None before any generation), and the manual session assignments.  The
last_schedule.json writes of the endpoints are on-disk persistence, out of
scope for the core per the specification. -/
structure MoveState where
  classes_data : List ClassInfo
  selected_classes : List String
  current_schedule : Option (Day → Nat → List MSession)
  manual_session_assignments : List (String × List SessionAssign)

/-- Append a session row to an existing class entry (the
`if class_name in session_assignments:` guard of
convert_schedule_to_sessions). -/
def appendSessionRow (m : List (String × List SessionAssign)) (name : String)
    (s : SessionAssign) : List (String × List SessionAssign) :=
  match lookupA m name with
  | some l => insertA m name (l ++ [s])
  | none => m

/-- convert_schedule_to_sessions: empty entries for every selected class,
then one (day, period, room) row per placed session, walking the schedule in
its insertion order (days in DAYS order, periods 1..11). -/
def convert_schedule_to_sessions (sched : Day → Nat → List MSession)
    (selected : List String) : List (String × List SessionAssign) :=
  let init := selected.foldl (fun m n => insertA m n ([] : List SessionAssign)) []
  DAYS.foldl (fun m d =>
    PERIODS_ALL.foldl (fun m2 p =>
      (sched d p).foldl (fun m3 cs =>
        appendSessionRow m3 cs.className
          { day := DayVal.day d, period := PeriodVal.num p, room := cs.room }) m2) m) init

/-- The session-index resolution shared by move_class and get_valid_slots:
when a current (day, period) is supplied, the first session row sitting
there wins; otherwise (or when nothing matches) the caller's index is kept.
(get_valid_slots omits the truthiness guard on the current slot, but a
missing value never matches a row, so the two behave identically.) -/
def resolveIndex (sessions : List SessionAssign) (sidx : Nat)
    (cd : Option Day) (cp : Option Nat) : Nat :=
  match cd, cp with
  | some d, some p =>
    match sessions.enum.find? (fun pr =>
        (pr.snd.day == DayVal.day d) && (pr.snd.period == PeriodVal.num p)) with
    | some pr => pr.fst
    | none => sidx
  | _, _ => sidx

/-- `while len(session_assignments[class_name]) <= resolved_index:
append({'day': 'Open', 'period': 'Open', 'room': 'Open'})`. -/
def padSessions (l : List SessionAssign) (i : Nat) : List SessionAssign :=
  l ++ List.replicate (i + 1 - l.length)
    { day := DayVal.open_, period := PeriodVal.open_, room := RoomVal.open_ }

/-- Python truthiness of a room cell (`if desired_room:`). -/
def rvTruthy : RoomVal → Bool
  | RoomVal.open_ => true
  | RoomVal.tbd => true
  | RoomVal.known _ => true
  | RoomVal.other s => !s.isEmpty

/-- The precise removal scan of update_current_schedule_with_move: the first
session of the class in the slot whose sessionIndex metadata is absent or
matches. -/
def removeFirstMSession (name : String) (sidx : Nat) :
    List MSession → Option (MSession × List MSession)
  | [] => none
  | cs :: rest =>
    if cs.className = name ∧ (cs.sessionIndex = none ∨ cs.sessionIndex = some sidx) then
      some (cs, rest)
    else
      match removeFirstMSession name sidx rest with
      | some pr => some (pr.fst, cs :: pr.snd)
      | none => none

/-- Remove the k-th occurrence (0-based) of the class from one slot list,
returning the remaining skip count when fewer occurrences exist. -/
def removeNthInList (name : String) :
    List MSession → Nat → Option (MSession × List MSession) × Nat
  | [], k => (none, k)
  | cs :: rest, k =>
    if cs.className = name then
      if k = 0 then (some (cs, rest), 0)
      else
        match removeNthInList name rest (k - 1) with
        | (some pr, k2) => (some (pr.fst, cs :: pr.snd), k2)
        | (none, k2) => (none, k2)
    else
      match removeNthInList name rest k with
      | (some pr, k2) => (some (pr.fst, cs :: pr.snd), k2)
      | (none, k2) => (none, k2)

/-- The fallback Nth-occurrence removal scan across the whole schedule, in
grid iteration order. -/
def fallbackRemoveGo (sched : Day → Nat → List MSession) (name : String) :
    List (Day × Nat) → Nat → Option (MSession × (Day → Nat → List MSession))
  | [], _ => none
  | dp :: rest, k =>
    match removeNthInList name (sched dp.fst dp.snd) k with
    | (some pr, _) =>
      some (pr.fst, fun d p => if d = dp.fst ∧ p = dp.snd then pr.snd else sched d p)
    | (none, k2) => fallbackRemoveGo sched name rest k2

/-- update_current_schedule_with_move: remove the moved session (precise
removal at the supplied current slot first, the Nth-occurrence scan as
fallback; an unfound session leaves the schedule unchanged) and append it at
the target slot, overriding the room with the preserved one when truthy. -/
def update_current_schedule_with_move (sched : Day → Nat → List MSession)
    (name : String) (sidx : Nat) (nd : Day) (np : Nat)
    (cd : Option Day) (cp : Option Nat) (preserved : RoomVal) :
    Day → Nat → List MSession :=
  let removedPrecise :=
    match cd, cp with
    | some d, some p =>
      match removeFirstMSession name sidx (sched d p) with
      | some pr =>
        some (pr.fst, fun d2 p2 => if d2 = d ∧ p2 = p then pr.snd else sched d2 p2)
      | none => none
    | _, _ => none
  let removed :=
    match removedPrecise with
    | some r => some r
    | none =>
      fallbackRemoveGo sched name (flm DAYS (fun d => PERIODS_ALL.map (fun p => (d, p)))) sidx
  match removed with
  | none => sched
  | some pr =>
    let newSession := if rvTruthy preserved then { pr.fst with room := preserved } else pr.fst
    fun d2 p2 =>
      if d2 = nd ∧ p2 = np then pr.snd d2 p2 ++ [newSession] else pr.snd d2 p2

/-- A move request (the required JSON fields of /api/move_class; requests
with missing required fields are rejected before any of this logic). -/
structure MoveRequest where
  class_name : String
  session_index : Nat
  new_day : Day
  new_period : Nat
  current_day : Option Day
  current_period : Option Nat

/-- The move response that matters to the state machine: accepted or not. -/
structure MoveResult where
  success : Bool
  state : MoveState

/-- The sessions sitting in the target slot after the tentative move (the
post-drop validation scan), as (class name, session index) pairs. -/
def sessionsInTargetSlot (sa : List (String × List SessionAssign)) (nd : Day) (np : Nat) :
    List (String × Nat) :=
  flm sa (fun pr => flm pr.snd.enum (fun ipr =>
    if ipr.snd.day = DayVal.day nd ∧ ipr.snd.period = PeriodVal.num np then
      [(pr.fst, ipr.fst)]
    else []))

/-- The local data move_class derives before its validations: the tentative
session rows with the dragged session moved, the resolved index, and the
preserved room. -/
structure MovePrep where
  sa2 : List (String × List SessionAssign)
  ridx : Nat
  preserved : RoomVal

/-- The preparation steps of move_class: convert the live schedule to
session rows, ensure and pad the dragged class's entry, resolve the dragged
index, and move that one row to the target slot, preserving its room. -/
def movePrep (sched : Day → Nat → List MSession) (selected : List String)
    (req : MoveRequest) : MovePrep :=
  let sa0 := convert_schedule_to_sessions sched selected
  let sa1 := if memA sa0 req.class_name then sa0 else insertA sa0 req.class_name []
  let sessions := (lookupA sa1 req.class_name).getD []
  let ridx := resolveIndex sessions req.session_index req.current_day req.current_period
  let padded := padSessions sessions ridx
  let original := (padded.get? ridx).getD
    { day := DayVal.open_, period := PeriodVal.open_, room := RoomVal.open_ }
  let preserved := original.room
  let updated := padded.set ridx
    { day := DayVal.day req.new_day, period := PeriodVal.num req.new_period, room := preserved }
  { sa2 := insertA sa1 req.class_name updated, ridx := ridx, preserved := preserved }

/-- The teacher list of the post-drop validation: one teacher per slot
session whose class record is found (unknown classes contribute nothing). -/
def slotTeachers (classesData : List ClassInfo) (inSlot : List (String × Nat)) :
    List String :=
  inSlot.filterMap (fun pr =>
    (classesData.find? (fun cls => cls.name = pr.fst)).map (fun cls => cls.teacher))

/-- The concatenated student list of the post-drop validation. -/
def slotStudents (classesData : List ClassInfo) (inSlot : List (String × Nat)) :
    List String :=
  flm inSlot (fun pr =>
    match classesData.find? (fun cls => cls.name = pr.fst) with
    | some cls => cls.students
    | none => [])

/-- move_class (/api/move_class): convert the live schedule to session rows,
resolve and tentatively move the dragged session, then run the three
post-drop validations (duplicate class in slot, duplicate teacher, duplicate
student - each detected as a repeated element, `len(set(xs)) < len(xs)`).
Any failure rejects the move and leaves the in-process schedule state
untouched (the Python early-returns fire before the two global updates; its
write of the reverted local rows to last_schedule.json is on-disk
persistence, out of scope).  On success the live schedule and the global
session assignments are updated. -/
def move_class (st : MoveState) (req : MoveRequest) : MoveResult :=
  match st.current_schedule with
  | none => { success := false, state := st }
  | some sched =>
    let prep := movePrep sched st.selected_classes req
    let inSlot := sessionsInTargetSlot prep.sa2 req.new_day req.new_period
    let names := inSlot.map (fun pr => pr.fst)
    if names.dedup.length < names.length then
      { success := false, state := st }
    else if st.classes_data = [] then
      { success := false, state := st }
    else
      let teachers := slotTeachers st.classes_data inSlot
      if teachers.dedup.length < teachers.length then
        { success := false, state := st }
      else
        let allStudents := slotStudents st.classes_data inSlot
        if allStudents.dedup.length < allStudents.length then
          { success := false, state := st }
        else
          let sched2 := update_current_schedule_with_move sched req.class_name prep.ridx
            req.new_day req.new_period req.current_day req.current_period prep.preserved
          { success := true
            state := { st with
              current_schedule := some sched2
              manual_session_assignments := prep.sa2 } }

/-- One conflict reported by check_slot_conflicts_directly. -/
inductive MoveConflict where
  | sameClass (sessionIdx : Nat)
  | teacherConflict (withClass : String)
  | studentConflict (withClass : String) (shared : List String)
deriving DecidableEq

/-- check_slot_conflicts_directly: scan every session row sitting at the
target slot, skip the dragged session itself, flag any other session of the
same class, and otherwise compare teachers and student lists against the
dragged class record (an unknown dragged class yields no conflicts, and
unknown occupant classes are skipped). -/
def check_slot_conflicts_directly (classesData : List ClassInfo)
    (sa : List (String × List SessionAssign)) (td : Day) (tp : Nat)
    (dName : String) (dIdx : Nat) : List MoveConflict :=
  match classesData.find? (fun cls => cls.name = dName) with
  | none => []
  | some dragged =>
    flm sa (fun pr => flm pr.snd.enum (fun ipr =>
      if ipr.snd.day = DayVal.day td ∧ ipr.snd.period = PeriodVal.num tp then
        if pr.fst = dName ∧ ipr.fst = dIdx then []
        else if pr.fst = dName then [MoveConflict.sameClass ipr.fst]
        else
          match classesData.find? (fun cls => cls.name = pr.fst) with
          | none => []
          | some other =>
            (if dragged.teacher = other.teacher then
              [MoveConflict.teacherConflict pr.fst]
             else []) ++
            (if shared_students dragged other ≠ [] then
              [MoveConflict.studentConflict pr.fst (shared_students dragged other)]
             else [])
      else []))

/-- A valid-slots request (/api/get_valid_slots). -/
structure ValidSlotsRequest where
  class_name : String
  session_index : Nat
  current_day : Option Day
  current_period : Option Nat

/-- One entry of the returned validity map. -/
structure SlotInfo where
  day : Day
  period : Nat
  valid : Bool
  conflicts : List MoveConflict
deriving DecidableEq

/-- The valid-slots response: the error cases return no map. -/
structure ValidSlotsResult where
  ok : Bool
  slots : List SlotInfo
deriving DecidableEq

/-- The tentative row representing the dragged session dropped at (d, p). -/
def sessionRowAt (d : Day) (p : Nat) : SessionAssign :=
  { day := DayVal.day d, period := PeriodVal.num p, room := RoomVal.open_ }

/-- get_valid_slots (/api/get_valid_slots): for every slot other than the
current one, build the tentative assignment rows with the dragged session
moved there (replacing the resolved row, or standing alone when the class
has no rows) and report the direct conflict scan.  The function only reads
the globals; the returned state is the input state unchanged, mirroring the
absence of any global write in the source. -/
def get_valid_slots (st : MoveState) (req : ValidSlotsRequest) :
    ValidSlotsResult × MoveState :=
  match st.current_schedule with
  | none => ({ ok := false, slots := [] }, st)
  | some sched =>
    if st.classes_data = [] then ({ ok := false, slots := [] }, st)
    else
      match st.classes_data.find? (fun cls => cls.name = req.class_name) with
      | none => ({ ok := false, slots := [] }, st)
      | some _ =>
        let fsa := convert_schedule_to_sessions sched st.selected_classes
        let filteredClasses := st.classes_data.filter
          (fun cls => st.selected_classes.contains cls.name)
        let ridx :=
          match lookupA fsa req.class_name with
          | some sessions => resolveIndex sessions req.session_index
              req.current_day req.current_period
          | none => req.session_index
        let slots := flm DAYS (fun d => flm PERIODS_ALL (fun p =>
          if req.current_day = some d ∧ req.current_period = some p then []
          else
            let temp :=
              match lookupA fsa req.class_name with
              | some l =>
                if ridx < l.length then insertA fsa req.class_name (l.set ridx (sessionRowAt d p))
                else insertA fsa req.class_name [sessionRowAt d p]
              | none => insertA fsa req.class_name [sessionRowAt d p]
            let conflicts := check_slot_conflicts_directly filteredClasses temp d p
              req.class_name ridx
            [{ day := d, period := p, valid := conflicts.isEmpty, conflicts := conflicts }]))
        ({ ok := true, slots := slots }, st)

/-- The Grid teacher invariant of the specification: no two sessions of any
one (day, period) slot share a teacher. -/
def TeacherOk (g : Day → Nat → List ClassInfo) : Prop :=
  ∀ d p, (g d p).Pairwise (fun a b => a.teacher ≠ b.teacher)

/-- The resolved room of a placed session, read back the way the rendering
layer reads it: `room_assignments[f"{day}_{period}_{class}"]`. -/
def resolvedRoom (st : SchedState) (d : Day) (p : Nat) (name : String) :
    Option RoomAssign :=
  lookupA st.room_assignments (d, p, name)

/-- The Grid room invariant of the specification: no two sessions of one
slot resolve to the same concrete room. -/
def RoomExclusive (st : SchedState) : Prop :=
  ∀ d p, (st.grid d p).Pairwise (fun c1 c2 =>
    ∀ r : Room, ¬ (resolvedRoom st d p c1.name = some (RoomAssign.known r) ∧
                   resolvedRoom st d p c2.name = some (RoomAssign.known r)))

/-- How many sessions of the named class sit in one slot list. -/
def countName (l : List ClassInfo) (n : String) : Nat :=
  (l.filter (fun c => c.name = n)).length

/-- The five (or three) runs behind one orchestrator call, in approach
order. -/
def approachRuns (inp : SchedInput) (u7 : Bool) :
    List (SchedState × List UnschedRecord) :=
  (approachesFor u7).map (runApproach inp)

/-- The adjusted score of the best-partial loop:
`score + total_scheduled * 50 - len(unscheduled) * 100`. -/
def adjustedScore (r : SchedState × List UnschedRecord) : Int :=
  evaluate_solution_quality r.fst + (totalScheduled r.fst : Int) * 50 -
    (r.snd.length : Int) * 100

/-- Per-slot name distinctness: no class record appears twice in one slot
list of the grid. -/
def SlotNamesOk (st : SchedState) : Prop :=
  ∀ d p, ((st.grid d p).map (fun c => c.name)).Nodup

/-- Coherence of the two room books: whenever room_assignments resolves a
class to a concrete room at a slot, assigned_rooms records that very class as
the occupant of that room at that slot.  Since a dict key holds one value,
this makes the resolved concrete rooms of one slot pairwise distinct. -/
def RoomLedgerOk (st : SchedState) : Prop :=
  ∀ (d : Day) (p : Nat) (n : String) (r : Room),
    lookupA st.room_assignments (d, p, n) = some (RoomAssign.known r) →
    lookupA st.assigned_rooms (d, p, r) = some n

/-- Every class sitting in the grid is among the given names (the names of
the classes processed so far). -/
def GridNamesIn (st : SchedState) (names : List String) : Prop :=
  ∀ (d : Day) (p : Nat), ∀ c ∈ st.grid d p, c.name ∈ names

/-- The best-partial loop has selected run r among the runs rs seen so far:
the stored minimum and score are those of r, r has the fewest unscheduled
classes among rs, and r beats every equal-count run of rs on adjusted score
(the first such run seen wins ties, since later runs displace it only on
strict improvement). -/
def SelHolds (sel : IncompleteSel) (rs : List (SchedState × List UnschedRecord)) : Prop :=
  ∃ r ∈ rs, sel.best = some r ∧ sel.minU = (r.snd.length : Int) ∧
    sel.bestScore = adjustedScore r ∧
    (∀ r2 ∈ rs, r.snd.length ≤ r2.snd.length) ∧
    (∀ r2 ∈ rs, r2.snd.length = r.snd.length → adjustedScore r2 ≤ adjustedScore r)

/-- Concrete input: no classes at all (exercises every orchestrator run). -/
def c1ex : SchedInput :=
  { classes := []
    manual_room_assignments := []
    manual_period_assignments := []
    manual_session_assignments := [] }

/-- Concrete input: two classes of one teacher, both pinned to Monday
period 2, so the second pin must be rejected. -/
def c3ex : SchedInput :=
  { classes :=
      [{ name := "A", teacher := "t", courseName := "", units := some 4, students := [] },
       { name := "B", teacher := "t", courseName := "", units := some 4, students := [] }]
    manual_room_assignments := []
    manual_period_assignments := []
    manual_session_assignments :=
      [("A", [{ day := DayVal.day Day.monday, period := PeriodVal.num 2, room := RoomVal.open_ }]),
       ("B", [{ day := DayVal.day Day.monday, period := PeriodVal.num 2, room := RoomVal.open_ }])] }

/-- Concrete input: two conflict-free classes pinned to the same slot with
the same manual room, which the pin pass books twice. -/
def c4exBad : SchedInput :=
  { classes :=
      [{ name := "A", teacher := "t1", courseName := "", units := some 4, students := [] },
       { name := "B", teacher := "t2", courseName := "", units := some 4, students := [] }]
    manual_room_assignments := []
    manual_period_assignments := []
    manual_session_assignments :=
      [("A", [{ day := DayVal.day Day.monday, period := PeriodVal.num 2,
                room := RoomVal.known Room.classroom_2 }]),
       ("B", [{ day := DayVal.day Day.monday, period := PeriodVal.num 2,
                room := RoomVal.known Room.classroom_2 }])] }

/-- Concrete input: two conflict-free classes with no manual input, both
auto-placed into Monday period 2 with distinct pool rooms. -/
def c4exGood : SchedInput :=
  { classes :=
      [{ name := "A", teacher := "t1", courseName := "", units := some 4, students := [] },
       { name := "B", teacher := "t2", courseName := "", units := some 4, students := [] }]
    manual_room_assignments := []
    manual_period_assignments := []
    manual_session_assignments := [] }

/-- Concrete live state for the move endpoints: class A at Monday period 2,
class B (same teacher) at Tuesday period 4. -/
def c5exSched : Day → Nat → List MSession :=
  fun d p =>
    if d = Day.monday ∧ p = 2 then
      [{ className := "A", room := RoomVal.known Room.classroom_2, sessionIndex := none }]
    else if d = Day.tuesday ∧ p = 4 then
      [{ className := "B", room := RoomVal.known Room.classroom_4, sessionIndex := none }]
    else []

/-- The move-endpoint globals for the concrete state above. -/
def c5exState : MoveState :=
  { classes_data :=
      [{ name := "A", teacher := "t", courseName := "", units := some 4, students := [] },
       { name := "B", teacher := "t", courseName := "", units := some 4, students := [] }]
    selected_classes := ["A", "B"]
    current_schedule := some c5exSched
    manual_session_assignments := [] }

/-- Moving B onto the slot of A, whose teacher it shares. -/
def c5exReq : MoveRequest :=
  { class_name := "B"
    session_index := 0
    new_day := Day.monday
    new_period := 2
    current_day := some Day.tuesday
    current_period := some 4 }

/-- Concrete input: two 12-credit classes of one teacher, both with a legacy
manual period 2, so the second class fits nowhere under any approach. -/
def c6ex : SchedInput :=
  { classes :=
      [{ name := "X1", teacher := "t", courseName := "", units := some 12, students := [] },
       { name := "X2", teacher := "t", courseName := "", units := some 12, students := [] }]
    manual_room_assignments := []
    manual_period_assignments := [("X1", 2), ("X2", 2)]
    manual_session_assignments := [] }

/-- Concrete input: one 12-credit class, nothing else. -/
def c10ex : SchedInput :=
  { classes :=
      [{ name := "X", teacher := "t", courseName := "", units := some 12, students := [] }]
    manual_room_assignments := []
    manual_period_assignments := []
    manual_session_assignments := [] }

/-- A lone class record for exercising the candidate search. -/
def c7exClass : ClassInfo :=
  { name := "A", teacher := "t", courseName := "", units := some 4, students := [] }

/-- A trivial input carrying that class. -/
def c7exInput : SchedInput :=
  { classes := [c7exClass]
    manual_room_assignments := []
    manual_period_assignments := []
    manual_session_assignments := [] }

/-- State extension: every later phase of a run only appends to grid slot
lists and to the rejected-pin list, so placements and rejections, once made,
survive to the end of the run. -/
def StateGrows (st st2 : SchedState) : Prop :=
  (∀ d p, ∃ tl, st2.grid d p = st.grid d p ++ tl) ∧
  (∃ tl, st2.manual_conflicts = st.manual_conflicts ++ tl)

theorem flm_nil {α β : Type} (f : α → List β) : flm [] f = [] := rfl

theorem flm_cons {α β : Type} (a : α) (l : List α) (f : α → List β) :
    flm (a :: l) f = f a ++ flm l f := by
  simp [flm]

theorem flm_eq_nil {α β : Type} {l : List α} {f : α → List β} :
    flm l f = [] ↔ ∀ a ∈ l, f a = [] := by
  induction l with
  | nil => simp [flm_nil]
  | cons a t ih => simp [flm_cons, ih]

theorem mem_flm {α β : Type} {l : List α} {f : α → List β} {b : β} :
    b ∈ flm l f ↔ ∃ a ∈ l, b ∈ f a := by
  induction l with
  | nil => simp [flm_nil]
  | cons a t ih => simp [flm_cons, ih]

theorem dedup_length_lt_iff {α : Type} [DecidableEq α] (l : List α) :
    l.dedup.length < l.length ↔ ¬ l.Nodup := by
  constructor
  · intro h hnd
    rw [List.Nodup.dedup hnd] at h
    exact lt_irrefl _ h
  · intro h
    rcases lt_or_eq_of_le (List.Sublist.length_le (List.dedup_sublist l)) with hlt | heq
    · exact hlt
    · exact absurd (by
        rw [← List.Sublist.eq_of_length (List.dedup_sublist l) heq]
        exact List.nodup_dedup l) h

theorem lookupA_insertA_self {κ ν : Type} [DecidableEq κ] (m : List (κ × ν)) (k : κ) (v : ν) :
    lookupA (insertA m k v) k = some v := by
  induction m with
  | nil => simp [insertA, lookupA]
  | cons e r ih =>
    by_cases h : k = e.fst
    · simp [insertA, h, lookupA]
    · simp [insertA, h, lookupA, ih]

theorem lookupA_insertA_ne {κ ν : Type} [DecidableEq κ] (m : List (κ × ν)) (k k2 : κ) (v : ν)
    (h : k2 ≠ k) : lookupA (insertA m k v) k2 = lookupA m k2 := by
  induction m with
  | nil => simp [insertA, lookupA, h]
  | cons e r ih =>
    by_cases he : k = e.fst
    · subst he
      simp [insertA, lookupA, h]
    · by_cases h2 : k2 = e.fst
      · simp [insertA, he, lookupA, h2]
      · simp [insertA, he, lookupA, h2, ih]

theorem gridAppend_self (g : Day → Nat → List ClassInfo) (d : Day) (p : Nat) (c : ClassInfo) :
    gridAppend g d p c d p = g d p ++ [c] := by
  simp [gridAppend]

theorem gridAppend_ne (g : Day → Nat → List ClassInfo) (d : Day) (p : Nat) (c : ClassInfo)
    (d2 : Day) (p2 : Nat) (h : ¬ (d2 = d ∧ p2 = p)) : gridAppend g d p c d2 p2 = g d2 p2 := by
  simp [gridAppend, h]

theorem check_conflicts_eq_nil {c1 c2 : ClassInfo} (h : check_conflicts c1 c2 = []) :
    c1.teacher ≠ c2.teacher ∧ shared_students c1 c2 = [] := by
  unfold check_conflicts at h
  rw [List.append_eq_nil] at h
  constructor
  · intro ht
    rw [if_pos ht] at h
    exact absurd h.1 (by simp)
  · by_contra hs
    rw [if_pos hs] at h
    exact absurd h.2 (by simp)

theorem slotClassConflicts_eq_nil {g : Day → Nat → List ClassInfo} {c : ClassInfo}
    {d : Day} {p : Nat} (h : slotClassConflicts g c d p = []) :
    ∀ e ∈ g d p, check_conflicts c e = [] := by
  intro e he
  have h2 := flm_eq_nil.mp h e he
  simpa using h2

theorem can_schedule_true_parts {inp : SchedInput} {g : Day → Nat → List ClassInfo}
    {c : ClassInfo} {opt : List Day} {per : Nat}
    {rooms : List ((Day × Nat × Room) × String)} {pref : Option RoomVal}
    (h : (can_schedule_class inp g c opt per rooms pref).fst = true) :
    ∀ d ∈ opt, slotClassConflicts g c d per = [] ∧
      roomAvailConflicts rooms (resolveRoomType inp c pref) d per = [] := by
  unfold can_schedule_class at h
  simp only [List.isEmpty_iff] at h
  intro d hd
  have h2 := flm_eq_nil.mp h d hd
  exact List.append_eq_nil.mp h2

/-- C2 counterexample: the claim says a credit value outside 4, 8, 12 (such
as 6) makes the frequency derivation report an InvalidCreditUnits error and
halt; instead both copies of get_class_frequency are total and silently
return the default frequency 1 on that very input. -/
theorem c2_counterexample :
    get_class_frequency (some 6) = 1 ∧ module_get_class_frequency (some 6) = 1 := by
  exact ⟨rfl, rfl⟩

/-- C2 amended: for every credit value outside 4, 8, 12 - other integers and
unparsable text alike - both frequency derivations silently return 1; no
error is reported and processing of the record continues (the source has no
InvalidCreditUnits path at all). -/
theorem c2_theorem (u : Option Int) (h4 : u ≠ some 4) (h8 : u ≠ some 8)
    (h12 : u ≠ some 12) :
    get_class_frequency u = 1 ∧ module_get_class_frequency u = 1 := by
  cases u with
  | none => exact ⟨rfl, rfl⟩
  | some n =>
    constructor
    · unfold get_class_frequency
      split <;> simp_all
    · unfold module_get_class_frequency
      split <;> simp_all

/-- C2 witness: the amended statement at the concrete credit value 5. -/
theorem c2_witness :
    get_class_frequency (some 5) = 1 ∧ module_get_class_frequency (some 5) = 1 :=
  c2_theorem (some 5) (by decide) (by decide) (by decide)

/-- C8 counterexample: the claim says the frequency-2 preference list is
[Tuesday, Thursday] followed by exactly six alternatives, which would make
eight minus one entries; the source list has seven alternatives after the
preferred pair (eight options in total). -/
theorem c8_counterexample :
    (get_preferred_days 2).head? = some [Day.tuesday, Day.thursday] ∧
    (get_preferred_days 2).tail.length = 7 ∧
    ¬ (get_preferred_days 2).tail.length = 6 := by
  decide

/-- C8 amended: for a class needing two sessions per week the ordered
day-pattern list starts with [Tuesday, Thursday] and is followed by exactly
seven ordered alternative pairs, every option being a duplicate-free
two-day pattern. -/
theorem c8_theorem :
    (get_preferred_days 2).head? = some [Day.tuesday, Day.thursday] ∧
    (get_preferred_days 2).tail =
      [[Day.monday, Day.wednesday],
       [Day.monday, Day.friday],
       [Day.wednesday, Day.friday],
       [Day.monday, Day.tuesday],
       [Day.tuesday, Day.wednesday],
       [Day.wednesday, Day.thursday],
       [Day.thursday, Day.friday]] ∧
    ∀ opt ∈ get_preferred_days 2, opt.length = 2 ∧ opt.Nodup := by
  refine ⟨by decide, by decide, ?_⟩
  decide

/-- C8 witness: the amended statement applied to the concrete alternative
[Monday, Wednesday]. -/
theorem c8_witness :
    ([Day.monday, Day.wednesday] : List Day).length = 2 ∧
    ([Day.monday, Day.wednesday] : List Day).Nodup :=
  c8_theorem.2.2 [Day.monday, Day.wednesday] (by decide)

/-- C9: get_valid_slots never mutates the schedule state it reads (every
return path carries the input globals through unchanged, matching the
absence of global writes in the source), and a second call on the state
left behind by the first returns the identical validity map. -/
theorem c9_theorem (st : MoveState) (req : ValidSlotsRequest) :
    (get_valid_slots st req).snd = st ∧
    (get_valid_slots ((get_valid_slots st req).snd) req).fst =
      (get_valid_slots st req).fst := by
  have h : (get_valid_slots st req).snd = st := by
    unfold get_valid_slots
    split
    · rfl
    · split
      · rfl
      · split
        · rfl
        · rfl
  exact ⟨h, by rw [h]⟩

/-- C7: during the placement search for one class, the first feasible
candidate whose period is in the immediate-commit set (the core periods
2/4/5/6, any legacy manual period, or the manual period hint) is committed
at once: whatever follows it in the candidate order is never examined (the
result does not depend on `post`), and the feasible non-core candidates
before it have only been remembered in the fallback accumulator, never
placed. -/
theorem c7_theorem (inp : SchedInput) (st : SchedState) (c : ClassInfo)
    (pref : Option RoomVal) (has_manual : Bool) (pp : Option PeriodVal) (freq : Nat)
    (pre post : List (Nat × List Day)) (p : Nat) (opt : List Day)
    (hpre : ∀ cand ∈ pre,
      ¬ ((can_schedule_class inp st.grid c cand.snd cand.fst st.assigned_rooms pref).fst
          = true ∧
         immediateCommit has_manual pp cand.fst = true))
    (hfeas : (can_schedule_class inp st.grid c opt p st.assigned_rooms pref).fst = true)
    (himm : immediateCommit has_manual pp p = true)
    (best : Option (Nat × List Day × Int)) (confs : List SlotConflict) :
    searchGo inp st c pref has_manual pp freq (pre ++ (p, opt) :: post) best confs =
      SearchResult.committed p opt := by
  induction pre generalizing best confs with
  | nil =>
    unfold searchGo
    simp [hfeas, himm]
  | cons a t ih =>
    have ha := hpre a (by simp)
    have ht : ∀ cand ∈ t,
        ¬ ((can_schedule_class inp st.grid c cand.snd cand.fst st.assigned_rooms pref).fst
            = true ∧
           immediateCommit has_manual pp cand.fst = true) :=
      fun cand hc => hpre cand (by simp [hc])
    rw [List.cons_append]
    unfold searchGo
    by_cases hf : (can_schedule_class inp st.grid c a.snd a.fst st.assigned_rooms pref).fst
        = true
    · have hni : immediateCommit has_manual pp a.fst = false := by
        cases himmA : immediateCommit has_manual pp a.fst
        · rfl
        · exact absurd ⟨hf, himmA⟩ ha
      rw [if_pos hf, if_neg (by rw [hni]; exact Bool.false_ne_true)]
      exact ih ht _ _
    · rw [if_neg hf]
      exact ih ht _ _

/-- C7 witness: on the empty grid, the single class commits at the very
first candidate (period 2 on Monday, a core period), and the trailing
candidate list is never examined. -/
theorem c7_witness :
    searchGo c7exInput initState c7exClass none false none 1
      [(2, [Day.monday]), (4, [Day.monday])] none [] =
      SearchResult.committed 2 [Day.monday] :=
  c7_theorem c7exInput initState c7exClass none false none 1 [] [(4, [Day.monday])]
    2 [Day.monday]
    (by intro cand h; exact absurd h (List.not_mem_nil cand))
    (by decide) (by decide) none []

/-- C5: whenever the target slot, after the tentative move, would hold two
sessions of the same class, or two sessions whose class records share a
teacher, or two whose student lists overlap (a repeated name in the
corresponding post-drop lists), move_class reports failure and the
in-process schedule state is exactly what it was before the request. -/
theorem c5_theorem (st : MoveState) (req : MoveRequest)
    (sched : Day → Nat → List MSession) (hs : st.current_schedule = some sched)
    (hconf :
      ¬ ((sessionsInTargetSlot (movePrep sched st.selected_classes req).sa2
            req.new_day req.new_period).map (fun pr => pr.fst)).Nodup ∨
      ¬ (slotTeachers st.classes_data
          (sessionsInTargetSlot (movePrep sched st.selected_classes req).sa2
            req.new_day req.new_period)).Nodup ∨
      ¬ (slotStudents st.classes_data
          (sessionsInTargetSlot (movePrep sched st.selected_classes req).sa2
            req.new_day req.new_period)).Nodup) :
    (move_class st req).success = false ∧ (move_class st req).state = st := by
  suffices h : move_class st req = { success := false, state := st } by
    rw [h]
    exact ⟨rfl, rfl⟩
  unfold move_class
  rw [hs]
  dsimp only
  split
  · rfl
  · split
    · rfl
    · split
      · rfl
      · split
        · rfl
        · rename_i h1 h2 h3 h4
          exfalso
          rcases hconf with hc | hc | hc
          · exact hc (not_not.mp (fun hn => h1 ((dedup_length_lt_iff _).mpr hn)))
          · exact hc (not_not.mp (fun hn => h3 ((dedup_length_lt_iff _).mpr hn)))
          · exact hc (not_not.mp (fun hn => h4 ((dedup_length_lt_iff _).mpr hn)))

/-- C5 witness: moving class B onto the slot of class A, whose teacher it
shares, is rejected and the live state is untouched. -/
theorem c5_witness :
    (move_class c5exState c5exReq).success = false ∧
    (move_class c5exState c5exReq).state = c5exState :=
  c5_theorem c5exState c5exReq c5exSched rfl (Or.inr (Or.inl (by decide)))

theorem stateGrows_refl (st : SchedState) : StateGrows st st :=
  ⟨fun _ _ => ⟨[], (List.append_nil _).symm⟩, ⟨[], (List.append_nil _).symm⟩⟩

theorem stateGrows_of_eq_fields {st st2 : SchedState} (hg : st2.grid = st.grid)
    (hc : st2.manual_conflicts = st.manual_conflicts) : StateGrows st st2 :=
  ⟨fun d p => ⟨[], by rw [hg, List.append_nil]⟩, ⟨[], by rw [hc, List.append_nil]⟩⟩

theorem stateGrows_trans {a b c : SchedState} (h1 : StateGrows a b) (h2 : StateGrows b c) :
    StateGrows a c := by
  constructor
  · intro d p
    rcases h1.1 d p with ⟨t1, e1⟩
    rcases h2.1 d p with ⟨t2, e2⟩
    exact ⟨t1 ++ t2, by rw [e2, e1, List.append_assoc]⟩
  · rcases h1.2 with ⟨t1, e1⟩
    rcases h2.2 with ⟨t2, e2⟩
    exact ⟨t1 ++ t2, by rw [e2, e1, List.append_assoc]⟩

theorem foldl_preserve {σ α : Type} (P : σ → Prop) (f : σ → α → σ) (l : List α)
    (hf : ∀ s a, P s → P (f s a)) : ∀ s, P s → P (l.foldl f s) := by
  induction l with
  | nil => intro s h; exact h
  | cons a t ih =>
    intro s h
    rw [List.foldl_cons]
    exact ih _ (hf s a h)

theorem reserveDay_grid (rt : Option Room) (c : ClassInfo) (p : Nat) (st : SchedState)
    (d : Day) : (reserveDay rt c p st d).grid = gridAppend st.grid d p c := by
  unfold reserveDay
  split
  · rfl
  · split
    · rfl
    · rfl

theorem reserveDay_manual_conflicts (rt : Option Room) (c : ClassInfo) (p : Nat)
    (st : SchedState) (d : Day) :
    (reserveDay rt c p st d).manual_conflicts = st.manual_conflicts := by
  unfold reserveDay
  split
  · rfl
  · split
    · rfl
    · rfl

theorem reserveDay_manually_scheduled (rt : Option Room) (c : ClassInfo) (p : Nat)
    (st : SchedState) (d : Day) :
    (reserveDay rt c p st d).manually_scheduled = st.manually_scheduled := by
  unfold reserveDay
  split
  · rfl
  · split
    · rfl
    · rfl

theorem reserveDay_room_prefs (rt : Option Room) (c : ClassInfo) (p : Nat)
    (st : SchedState) (d : Day) :
    (reserveDay rt c p st d).room_prefs = st.room_prefs := by
  unfold reserveDay
  split
  · rfl
  · split
    · rfl
    · rfl

theorem foldl_reserveDay_grows (rt : Option Room) (c : ClassInfo) (p : Nat)
    (opt : List Day) : ∀ st : SchedState, StateGrows st (opt.foldl (reserveDay rt c p) st) := by
  induction opt with
  | nil => intro st; exact stateGrows_refl st
  | cons d t ih =>
    intro st
    rw [List.foldl_cons]
    refine stateGrows_trans ?_ (ih _)
    constructor
    · intro d2 p2
      rw [reserveDay_grid]
      by_cases h : d2 = d ∧ p2 = p
      · rcases h with ⟨rfl, rfl⟩
        exact ⟨[c], gridAppend_self _ _ _ _⟩
      · exact ⟨[], by rw [gridAppend_ne _ _ _ _ _ _ h, List.append_nil]⟩
    · exact ⟨[], by rw [reserveDay_manual_conflicts, List.append_nil]⟩

theorem schedule_class_grows (inp : SchedInput) (st : SchedState) (c : ClassInfo)
    (opt : List Day) (p : Nat) (pref : Option RoomVal) :
    StateGrows st (schedule_class inp st c opt p pref) :=
  foldl_reserveDay_grows _ c p opt st

theorem pinRoomBookkeeping_grid (inp : SchedInput) (st : SchedState) (c : ClassInfo)
    (d : Day) (p : Nat) (room : RoomVal) :
    (pinRoomBookkeeping inp st c d p room).grid = st.grid := by
  unfold pinRoomBookkeeping
  split
  · rfl
  · rfl
  · split
    · rfl
    · split
      · rfl
      · rfl

theorem pinRoomBookkeeping_manual_conflicts (inp : SchedInput) (st : SchedState)
    (c : ClassInfo) (d : Day) (p : Nat) (room : RoomVal) :
    (pinRoomBookkeeping inp st c d p room).manual_conflicts = st.manual_conflicts := by
  unfold pinRoomBookkeeping
  split
  · rfl
  · rfl
  · split
    · rfl
    · split
      · rfl
      · rfl

theorem placePinned_grows (inp : SchedInput) (st : SchedState) (c : ClassInfo)
    (d : Day) (p : Nat) (room : RoomVal) (i : Nat) :
    StateGrows st (placePinned inp st c d p room i) := by
  unfold placePinned
  split
  · exact ⟨fun _ _ => ⟨[], (List.append_nil _).symm⟩,
      ⟨[{ className := c.name, day := d, period := p,
          reasons := slotClassConflicts st.grid c d p }], rfl⟩⟩
  · constructor
    · intro d2 p2
      show ∃ tl,
        (pinRoomBookkeeping inp { st with grid := gridAppend st.grid d p c } c d p room).grid
          d2 p2 = st.grid d2 p2 ++ tl
      rw [pinRoomBookkeeping_grid]
      show ∃ tl, gridAppend st.grid d p c d2 p2 = st.grid d2 p2 ++ tl
      by_cases h : d2 = d ∧ p2 = p
      · rcases h with ⟨rfl, rfl⟩
        exact ⟨[c], gridAppend_self _ _ _ _⟩
      · exact ⟨[], by rw [gridAppend_ne _ _ _ _ _ _ h, List.append_nil]⟩
    · refine ⟨[], ?_⟩
      show (pinRoomBookkeeping inp { st with grid := gridAppend st.grid d p c } c d p
        room).manual_conflicts = st.manual_conflicts ++ []
      rw [pinRoomBookkeeping_manual_conflicts, List.append_nil]

theorem processSession_grows (inp : SchedInput) (name : String) (c : ClassInfo)
    (st : SchedState) (i : Nat) (s : SessionAssign) :
    StateGrows st (processSession inp name c st i s) := by
  unfold processSession
  split
  · split
    · exact placePinned_grows _ _ _ _ _ _ _
    · split
      · exact placePinned_grows _ _ _ _ _ _ _
      · exact stateGrows_refl st
    · split
      · exact placePinned_grows _ _ _ _ _ _ _
      · exact stateGrows_refl st
    · split
      · exact placePinned_grows _ _ _ _ _ _ _
      · exact stateGrows_refl st
    · exact stateGrows_refl st
  · refine stateGrows_of_eq_fields ?_ ?_ <;>
    · dsimp only
      repeat' split
      all_goals rfl

theorem processSessionsIdx_grows (inp : SchedInput) (name : String) (c : ClassInfo) :
    ∀ (l : List SessionAssign) (st : SchedState) (i : Nat),
      StateGrows st (processSessionsIdx inp name c st i l) := by
  intro l
  induction l with
  | nil => intro st i; exact stateGrows_refl st
  | cons s t ih =>
    intro st i
    exact stateGrows_trans (processSession_grows inp name c st i s) (ih _ _)

theorem processClassAssignments_grows (inp : SchedInput) (st : SchedState)
    (entry : String × List SessionAssign) :
    StateGrows st (processClassAssignments inp st entry) := by
  unfold processClassAssignments
  split
  · exact stateGrows_refl st
  · exact stateGrows_trans (stateGrows_of_eq_fields rfl rfl) (processSessionsIdx_grows _ _ _ _ _ _)

theorem scheduleOneClass_grows (inp : SchedInput) (u a : Bool)
    (acc : SchedState × List UnschedRecord) (c : ClassInfo) :
    StateGrows acc.fst (scheduleOneClass inp u a acc c).fst := by
  unfold scheduleOneClass
  dsimp only
  split
  · exact stateGrows_refl _
  · split
    · exact schedule_class_grows _ _ _ _ _ _
    · exact schedule_class_grows _ _ _ _ _ _
    · exact stateGrows_refl _

theorem applyPrefEntry_grid (st : SchedState) (name : String)
    (instances : List (Day × Nat)) (pr : Nat × RoomVal) :
    (applyPrefEntry st name instances pr).grid = st.grid := by
  unfold applyPrefEntry
  split
  · rfl
  · rfl

theorem applyPrefEntry_manual_conflicts (st : SchedState) (name : String)
    (instances : List (Day × Nat)) (pr : Nat × RoomVal) :
    (applyPrefEntry st name instances pr).manual_conflicts = st.manual_conflicts := by
  unfold applyPrefEntry
  split
  · rfl
  · rfl

theorem apply_room_preferences_grid (st : SchedState) :
    (apply_room_preferences st).grid = st.grid ∧
    (apply_room_preferences st).manual_conflicts = st.manual_conflicts := by
  unfold apply_room_preferences
  refine foldl_preserve
    (fun s2 => s2.grid = st.grid ∧ s2.manual_conflicts = st.manual_conflicts) _ _
    ?_ st ⟨rfl, rfl⟩
  intro s entry hP
  dsimp only
  refine foldl_preserve
    (fun s2 => s2.grid = st.grid ∧ s2.manual_conflicts = st.manual_conflicts) _ _
    ?_ s hP
  intro s2 pr hP2
  exact ⟨by rw [applyPrefEntry_grid]; exact hP2.1,
         by rw [applyPrefEntry_manual_conflicts]; exact hP2.2⟩

theorem autoPhase_grows (inp : SchedInput) (u a : Bool) (l : List ClassInfo) :
    ∀ acc : SchedState × List UnschedRecord,
      StateGrows acc.fst (l.foldl (scheduleOneClass inp u a) acc).fst := by
  induction l with
  | nil => intro acc; exact stateGrows_refl _
  | cons c t ih =>
    intro acc
    rw [List.foldl_cons]
    exact stateGrows_trans (scheduleOneClass_grows inp u a acc c) (ih _)

theorem manualPassSuffix_grows (inp : SchedInput) (l : List (String × List SessionAssign)) :
    ∀ st : SchedState, StateGrows st (l.foldl (processClassAssignments inp) st) := by
  induction l with
  | nil => intro st; exact stateGrows_refl st
  | cons e t ih =>
    intro st
    rw [List.foldl_cons]
    exact stateGrows_trans (processClassAssignments_grows inp st e) (ih _)

theorem grows_preserves_name {st st2 : SchedState} (h : StateGrows st st2) {d : Day}
    {p : Nat} {name : String} (hm : ∃ c2 ∈ st.grid d p, c2.name = name) :
    ∃ c2 ∈ st2.grid d p, c2.name = name := by
  rcases h.1 d p with ⟨tl, e⟩
  rcases hm with ⟨c2, hc2, hn⟩
  exact ⟨c2, by rw [e]; exact List.mem_append_left _ hc2, hn⟩

theorem grows_preserves_conflict {st st2 : SchedState} (h : StateGrows st st2)
    {name : String} {d : Day} {p : Nat}
    (hm : ∃ e ∈ st.manual_conflicts,
      e.className = name ∧ e.day = d ∧ e.period = p ∧ e.reasons ≠ []) :
    ∃ e ∈ st2.manual_conflicts,
      e.className = name ∧ e.day = d ∧ e.period = p ∧ e.reasons ≠ [] := by
  rcases h.2 with ⟨tl, e⟩
  rcases hm with ⟨x, hx, hprop⟩
  exact ⟨x, by rw [e]; exact List.mem_append_left _ hx, hprop⟩

theorem placePinned_outcome (inp : SchedInput) (st : SchedState) (c : ClassInfo)
    (d : Day) (p : Nat) (room : RoomVal) (i : Nat) :
    (∃ c2 ∈ (placePinned inp st c d p room i).grid d p, c2.name = c.name) ∨
    (∃ e ∈ (placePinned inp st c d p room i).manual_conflicts,
      e.className = c.name ∧ e.day = d ∧ e.period = p ∧ e.reasons ≠ []) := by
  unfold placePinned
  split
  · rename_i hcf
    right
    refine ⟨⟨c.name, d, p, slotClassConflicts st.grid c d p⟩, ?_, rfl, rfl, rfl, hcf⟩
    simp
  · left
    refine ⟨c, ?_, rfl⟩
    show c ∈ (pinRoomBookkeeping inp { st with grid := gridAppend st.grid d p c }
      c d p room).grid d p
    rw [pinRoomBookkeeping_grid]
    show c ∈ gridAppend st.grid d p c d p
    rw [gridAppend_self]
    simp

theorem processSession_pin_eq (inp : SchedInput) (name : String) (c : ClassInfo)
    (st : SchedState) (i : Nat) (s : SessionAssign) (d : Day) (p : Nat)
    (hd : s.day = DayVal.day d) (hp : s.period = PeriodVal.num p) :
    processSession inp name c st i s = placePinned inp st c d p s.room i := by
  unfold processSession
  rw [hd, hp]
  simp [isDaySpecified]

theorem processSessionsIdx_reach (inp : SchedInput) (name : String) (c : ClassInfo)
    (hc : c.name = name) :
    ∀ (l : List SessionAssign) (st : SchedState) (start i : Nat) (s : SessionAssign),
      l.get? i = some s →
      ∀ (d : Day) (p : Nat), s.day = DayVal.day d → s.period = PeriodVal.num p →
      (∃ c2 ∈ (processSessionsIdx inp name c st start l).grid d p, c2.name = name) ∨
      (∃ e ∈ (processSessionsIdx inp name c st start l).manual_conflicts,
        e.className = name ∧ e.day = d ∧ e.period = p ∧ e.reasons ≠ []) := by
  intro l
  induction l with
  | nil =>
    intro st start i s hg
    simp at hg
  | cons s0 t ih =>
    intro st start i s hg d p hd hp
    cases i with
    | zero =>
      have hs0 : s0 = s := by simpa using hg
      subst hs0
      show (∃ c2 ∈ (processSessionsIdx inp name c
          (processSession inp name c st start s0) (start + 1) t).grid d p, c2.name = name) ∨
        (∃ e ∈ (processSessionsIdx inp name c
          (processSession inp name c st start s0) (start + 1) t).manual_conflicts,
          e.className = name ∧ e.day = d ∧ e.period = p ∧ e.reasons ≠ [])
      rw [processSession_pin_eq inp name c st start s0 d p hd hp]
      have hgrow := processSessionsIdx_grows inp name c t
        (placePinned inp st c d p s0.room start) (start + 1)
      rcases placePinned_outcome inp st c d p s0.room start with hout | hout
      · rw [hc] at hout
        exact Or.inl (grows_preserves_name hgrow hout)
      · rw [hc] at hout
        exact Or.inr (grows_preserves_conflict hgrow hout)
    | succ j =>
      have hg2 : t.get? j = some s := by simpa using hg
      exact ih (processSession inp name c st start s0) (start + 1) j s hg2 d p hd hp

theorem processClassAssignments_reach (inp : SchedInput) (st : SchedState)
    (name : String) (sessions : List SessionAssign)
    (hfound : ∃ c, inp.classes.find? (fun cls => cls.name = name) = some c)
    (i : Nat) (s : SessionAssign) (hg : sessions.get? i = some s)
    (d : Day) (p : Nat) (hd : s.day = DayVal.day d) (hp : s.period = PeriodVal.num p) :
    (∃ c2 ∈ (processClassAssignments inp st (name, sessions)).grid d p, c2.name = name) ∨
    (∃ e ∈ (processClassAssignments inp st (name, sessions)).manual_conflicts,
      e.className = name ∧ e.day = d ∧ e.period = p ∧ e.reasons ≠ []) := by
  rcases hfound with ⟨c, hfind⟩
  have hcn : c.name = name := by
    have h2 := List.find?_some hfind
    simpa using h2
  unfold processClassAssignments
  dsimp only
  rw [hfind]
  exact processSessionsIdx_reach inp name c hcn sessions _ 0 i s hg d p hd hp

/-- C3: (first part) a fully pinned session whose requested slot already
holds a conflicting session is not placed - the grid is exactly the grid
from before the pin - and a rejected-pin record carrying precisely the
conflict reasons is appended; (second part) consequently, in any internal
run, every fully pinned session of a selected class either appears at its
pinned slot in the final grid or appears in the rejected-pin list with a
nonempty reason list. -/
theorem c3_theorem (inp : SchedInput) (u a : Bool) (hv : validPeriods inp)
    (name : String) (sessions : List SessionAssign)
    (hmem : (name, sessions) ∈ inp.manual_session_assignments)
    (hsel : name ∈ inp.classes.map (fun cls => cls.name))
    (i : Nat) (s : SessionAssign) (hg : sessions.get? i = some s)
    (d : Day) (p : Nat) (hd : s.day = DayVal.day d) (hp : s.period = PeriodVal.num p) :
    (∀ (st : SchedState) (c2 : ClassInfo) (d2 : Day) (p2 : Nat) (room : RoomVal) (i2 : Nat),
      slotClassConflicts st.grid c2 d2 p2 ≠ [] →
      (placePinned inp st c2 d2 p2 room i2).grid = st.grid ∧
      ∃ e ∈ (placePinned inp st c2 d2 p2 room i2).manual_conflicts,
        e.className = c2.name ∧ e.day = d2 ∧ e.period = p2 ∧
        e.reasons = slotClassConflicts st.grid c2 d2 p2) ∧
    ((∃ c2 ∈ (generate_schedule_internal inp u a).fst.grid d p, c2.name = name) ∨
     (∃ e ∈ (generate_schedule_internal inp u a).fst.manual_conflicts,
       e.className = name ∧ e.day = d ∧ e.period = p ∧ e.reasons ≠ [])) := by
  constructor
  · intro st c2 d2 p2 room i2 hcf
    unfold placePinned
    rw [if_pos hcf]
    exact ⟨rfl, ⟨⟨c2.name, d2, p2, slotClassConflicts st.grid c2 d2 p2⟩,
      by simp, rfl, rfl, rfl, rfl⟩⟩
  · have hmf : (name, sessions) ∈ filteredAssignments inp := by
      unfold filteredAssignments
      rw [List.mem_filter]
      refine ⟨hmem, ?_⟩
      simpa using hsel
    rcases List.append_of_mem hmf with ⟨l1, l2, hsplit⟩
    have hmp : manualPass inp =
        l2.foldl (processClassAssignments inp)
          (processClassAssignments inp (l1.foldl (processClassAssignments inp) initState)
            (name, sessions)) := by
      unfold manualPass
      rw [hsplit, List.foldl_append, List.foldl_cons]
    have hfound : ∃ c, inp.classes.find? (fun cls => cls.name = name) = some c := by
      rcases List.mem_map.mp hsel with ⟨c, hcmem, hceq⟩
      have hsome : (inp.classes.find? (fun cls => cls.name = name)).isSome := by
        rw [List.find?_isSome]
        exact ⟨c, hcmem, by simp [hceq]⟩
      rcases Option.isSome_iff_exists.mp hsome with ⟨c2, hc2⟩
      exact ⟨c2, hc2⟩
    have hreach := processClassAssignments_reach inp
      (l1.foldl (processClassAssignments inp) initState) name sessions hfound i s hg d p hd hp
    have hgrow1 : StateGrows
        (processClassAssignments inp (l1.foldl (processClassAssignments inp) initState)
          (name, sessions)) (manualPass inp) := by
      rw [hmp]
      exact manualPassSuffix_grows inp l2 _
    have hgrow2 : StateGrows (manualPass inp)
        ((sortDesc (class_priority inp) inp.classes).foldl (scheduleOneClass inp u a)
          (manualPass inp, [])).fst :=
      autoPhase_grows inp u a _ _
    have hgrow := stateGrows_trans hgrow1 hgrow2
    have hgrid : (generate_schedule_internal inp u a).fst.grid =
        ((sortDesc (class_priority inp) inp.classes).foldl (scheduleOneClass inp u a)
          (manualPass inp, [])).fst.grid :=
      (apply_room_preferences_grid _).1
    have hconf : (generate_schedule_internal inp u a).fst.manual_conflicts =
        ((sortDesc (class_priority inp) inp.classes).foldl (scheduleOneClass inp u a)
          (manualPass inp, [])).fst.manual_conflicts :=
      (apply_room_preferences_grid _).2
    rcases hreach with h | h
    · left
      rw [hgrid]
      exact grows_preserves_name hgrow h
    · right
      rw [hconf]
      exact grows_preserves_conflict hgrow h

/-- C3 witness: with classes A and B of one teacher both pinned to Monday
period 2, the pin of B is either honored at that slot or rejected with
reasons - here concretely rejected. -/
theorem c3_witness :
    (∀ (st : SchedState) (c2 : ClassInfo) (d2 : Day) (p2 : Nat) (room : RoomVal) (i2 : Nat),
      slotClassConflicts st.grid c2 d2 p2 ≠ [] →
      (placePinned c3ex st c2 d2 p2 room i2).grid = st.grid ∧
      ∃ e ∈ (placePinned c3ex st c2 d2 p2 room i2).manual_conflicts,
        e.className = c2.name ∧ e.day = d2 ∧ e.period = p2 ∧
        e.reasons = slotClassConflicts st.grid c2 d2 p2) ∧
    ((∃ c2 ∈ (generate_schedule_internal c3ex false true).fst.grid Day.monday 2,
        c2.name = "B") ∨
     (∃ e ∈ (generate_schedule_internal c3ex false true).fst.manual_conflicts,
       e.className = "B" ∧ e.day = Day.monday ∧ e.period = 2 ∧ e.reasons ≠ [])) :=
  c3_theorem c3ex false true (by constructor <;> decide) "B"
    [{ day := DayVal.day Day.monday, period := PeriodVal.num 2, room := RoomVal.open_ }]
    (by decide) (by decide) 0
    { day := DayVal.day Day.monday, period := PeriodVal.num 2, room := RoomVal.open_ }
    (by decide) Day.monday 2 rfl rfl

theorem teacherOk_append {g : Day → Nat → List ClassInfo} {d : Day} {p : Nat} {c : ClassInfo}
    (hok : TeacherOk g) (hfree : ∀ e ∈ g d p, check_conflicts c e = []) :
    TeacherOk (gridAppend g d p c) := by
  intro d2 p2
  by_cases h : d2 = d ∧ p2 = p
  · rcases h with ⟨rfl, rfl⟩
    rw [gridAppend_self, List.pairwise_append]
    refine ⟨hok d2 p2, List.pairwise_singleton _ _, ?_⟩
    intro x hx y hy
    rw [List.mem_singleton] at hy
    subst hy
    exact Ne.symm ((check_conflicts_eq_nil (hfree x hx)).1)
  · rw [gridAppend_ne _ _ _ _ _ _ h]
    exact hok d2 p2

theorem teacherOk_placePinned {inp : SchedInput} {st : SchedState} {c : ClassInfo}
    {d : Day} {p : Nat} {room : RoomVal} {i : Nat} (hok : TeacherOk st.grid) :
    TeacherOk (placePinned inp st c d p room i).grid := by
  unfold placePinned
  split
  · exact hok
  · rename_i hcf
    show TeacherOk (pinRoomBookkeeping inp { st with grid := gridAppend st.grid d p c }
      c d p room).grid
    rw [pinRoomBookkeeping_grid]
    show TeacherOk (gridAppend st.grid d p c)
    exact teacherOk_append hok (slotClassConflicts_eq_nil (not_ne_iff.mp hcf))

theorem teacherOk_processSession (inp : SchedInput) (name : String) (c : ClassInfo)
    (st : SchedState) (i : Nat) (s : SessionAssign) (hok : TeacherOk st.grid) :
    TeacherOk (processSession inp name c st i s).grid := by
  unfold processSession
  split
  · split
    · exact teacherOk_placePinned hok
    · split
      · exact teacherOk_placePinned hok
      · exact hok
    · split
      · exact teacherOk_placePinned hok
      · exact hok
    · split
      · exact teacherOk_placePinned hok
      · exact hok
    · exact hok
  · dsimp only
    repeat' split
    all_goals exact hok

theorem teacherOk_processSessionsIdx (inp : SchedInput) (name : String) (c : ClassInfo) :
    ∀ (l : List SessionAssign) (st : SchedState) (i : Nat), TeacherOk st.grid →
      TeacherOk (processSessionsIdx inp name c st i l).grid := by
  intro l
  induction l with
  | nil => intro st i hok; exact hok
  | cons s t ih =>
    intro st i hok
    exact ih _ _ (teacherOk_processSession inp name c st i s hok)

theorem teacherOk_manualPass (inp : SchedInput) : TeacherOk (manualPass inp).grid := by
  unfold manualPass
  refine foldl_preserve (fun st => TeacherOk st.grid) _ _ ?_ initState ?_
  · intro st entry hok
    unfold processClassAssignments
    split
    · exact hok
    · exact teacherOk_processSessionsIdx inp entry.fst _ entry.snd _ 0 hok
  · intro d p
    exact List.Pairwise.nil

theorem searchGo_good (inp : SchedInput) (st : SchedState) (c : ClassInfo)
    (pref : Option RoomVal) (hm : Bool) (pp : Option PeriodVal) (freq : Nat)
    (P : Nat → List Day → Prop) :
    ∀ (cands : List (Nat × List Day)) (best : Option (Nat × List Day × Int))
      (confs : List SlotConflict),
      (∀ cand ∈ cands,
        (can_schedule_class inp st.grid c cand.snd cand.fst st.assigned_rooms pref).fst = true →
        P cand.fst cand.snd) →
      (∀ b, best = some b → P b.fst b.snd.fst) →
      ∀ p opt,
        (searchGo inp st c pref hm pp freq cands best confs = SearchResult.committed p opt ∨
         searchGo inp st c pref hm pp freq cands best confs = SearchResult.viaFallback p opt) →
        P p opt := by
  intro cands
  induction cands with
  | nil =>
    intro best confs hcands hbest p opt hres
    rcases hres with h | h
    · unfold searchGo at h
      rcases hb : best with _ | b
      · rw [hb] at h
        exact absurd h (by simp)
      · rw [hb] at h
        exact absurd h (by simp)
    · unfold searchGo at h
      rcases hb : best with _ | b
      · rw [hb] at h
        exact absurd h (by simp)
      · rw [hb] at h
        have h2 : b.fst = p ∧ b.snd.fst = opt := by
          have := SearchResult.viaFallback.inj h
          exact this
        rcases h2 with ⟨h3, h4⟩
        rw [← h3, ← h4]
        exact hbest b hb
  | cons cand rest ih =>
    intro best confs hcands hbest p opt hres
    have hrest : ∀ cand2 ∈ rest,
        (can_schedule_class inp st.grid c cand2.snd cand2.fst st.assigned_rooms pref).fst
          = true → P cand2.fst cand2.snd :=
      fun cand2 hc2 => hcands cand2 (by simp [hc2])
    by_cases hf :
        (can_schedule_class inp st.grid c cand.snd cand.fst st.assigned_rooms pref).fst = true
    · by_cases hi : immediateCommit hm pp cand.fst = true
      · have heq : searchGo inp st c pref hm pp freq (cand :: rest) best confs =
            SearchResult.committed cand.fst cand.snd := by
          unfold searchGo
          rw [if_pos hf, if_pos hi]
        rw [heq] at hres
        rcases hres with h | h
        · have h2 := SearchResult.committed.inj h
          rcases h2 with ⟨h3, h4⟩
          rw [← h3, ← h4]
          exact hcands cand (by simp) hf
        · exact absurd h (by simp)
      · simp only [searchGo] at hres
        rw [if_pos hf, if_neg hi] at hres
        have hbest2 : ∀ b, updateBest best cand.fst cand.snd
            (get_option_priority_score cand.fst cand.snd freq) = some b →
            P b.fst b.snd.fst := by
          intro b hb
          unfold updateBest at hb
          rcases hbb : best with _ | b0
          · rw [hbb] at hb
            dsimp only at hb
            have hbe : b = (cand.fst, cand.snd,
                get_option_priority_score cand.fst cand.snd freq) :=
              (Option.some_inj.mp hb).symm
            subst hbe
            exact hcands cand (by simp) hf
          · rw [hbb] at hb
            dsimp only at hb
            by_cases hsc : get_option_priority_score cand.fst cand.snd freq > b0.snd.snd
            · rw [if_pos hsc] at hb
              have hbe : b = (cand.fst, cand.snd,
                  get_option_priority_score cand.fst cand.snd freq) :=
                (Option.some_inj.mp hb).symm
              subst hbe
              exact hcands cand (by simp) hf
            · rw [if_neg hsc] at hb
              have hbe : b = b0 := (Option.some_inj.mp hb).symm
              subst hbe
              exact hbest b hbb
        exact ih _ confs hrest hbest2 p opt hres
    · simp only [searchGo] at hres
      rw [if_neg hf] at hres
      exact ih best _ hrest hbest p opt hres

theorem get_preferred_days_nodup (f : Int) : ∀ opt ∈ get_preferred_days f, opt.Nodup := by
  intro opt h
  unfold get_preferred_days at h
  split_ifs at h
  all_goals fin_cases h <;> decide

theorem inferTwo_nodup (md : List DayVal) (l : List Day) (h : inferTwo md = some l) :
    l.Nodup := by
  unfold inferTwo at h
  split_ifs at h
  all_goals first
    | exact Option.noConfusion h
    | (rw [Option.some_inj] at h; subst h; decide)

theorem inferThree_nodup (md : List DayVal) (l : List Day) (h : inferThree md = some l) :
    l.Nodup := by
  unfold inferThree at h
  dsimp only at h
  split_ifs at h
  all_goals first
    | exact Option.noConfusion h
    | (rw [Option.some_inj] at h; subst h; decide)
    | (rw [Option.some_inj] at h; subst h;
       exact List.Nodup.filter _ (by decide))
    | (rw [Option.some_inj] at h; subst h;
       exact List.Nodup.sublist (List.take_sublist _ _) (List.Nodup.filter _ (by decide)))

theorem analyzeInferred_nodup (md : List DayVal) (freq : Nat) (l : List Day)
    (h : analyzeInferred md freq = some l) : l.Nodup := by
  unfold analyzeInferred at h
  split_ifs at h
  all_goals first
    | exact Option.noConfusion h
    | exact inferTwo_nodup md l h
    | exact inferThree_nodup md l h

theorem day_options_base_nodup (pat : ManualPattern) (remaining : Int)
    (hinf : ∀ l, pat.inferred_days = some l → l.Nodup) :
    ∀ opt ∈ day_options_base pat remaining, opt.Nodup := by
  intro opt hopt
  unfold day_options_base at hopt
  rcases hpd : pat.inferred_days with _ | inf <;> rw [hpd] at hopt
  · exact get_preferred_days_nodup remaining opt hopt
  · dsimp only at hopt
    by_cases hne : inf ≠ []
    · rw [if_pos hne] at hopt
      rcases List.mem_append.mp hopt with h1 | h1
      · rw [List.mem_singleton] at h1
        subst h1
        exact hinf opt hpd
      · exact get_preferred_days_nodup remaining opt (List.mem_of_mem_filter h1)
    · rw [if_neg hne] at hopt
      exact get_preferred_days_nodup remaining opt hopt

theorem day_options_for_nodup (inp : SchedInput) (st : SchedState) (name : String)
    (pat : ManualPattern) (remaining : Int)
    (hinf : ∀ l, pat.inferred_days = some l → l.Nodup) :
    ∀ opt ∈ day_options_for inp st name pat remaining, opt.Nodup := by
  intro opt hopt
  unfold day_options_for at hopt
  dsimp only at hopt
  split at hopt
  · split at hopt
    · rcases List.mem_filterMap.mp hopt with ⟨opt0, h0, hsome⟩
      split at hsome
      · rw [Option.some_inj] at hsome
        subst hsome
        exact List.Nodup.filter _ (day_options_base_nodup pat remaining hinf opt0 h0)
      · exact Option.noConfusion hsome
    · exact day_options_base_nodup pat remaining hinf opt hopt
  · exact day_options_base_nodup pat remaining hinf opt hopt

theorem allCandidates_snd_mem {groups : List (List Nat)} {dayOpts : List (List Day)}
    {cand : Nat × List Day} (h : cand ∈ allCandidates groups dayOpts) :
    cand.snd ∈ dayOpts := by
  unfold allCandidates at h
  rcases mem_flm.mp h with ⟨g, _, h2⟩
  rcases mem_flm.mp h2 with ⟨p, _, h3⟩
  rcases List.mem_map.mp h3 with ⟨opt, hopt, heq⟩
  rw [← heq]
  exact hopt

theorem teacherOk_foldl_reserveDay (rt : Option Room) (c : ClassInfo) (p : Nat) :
    ∀ (opt : List Day) (st : SchedState), TeacherOk st.grid → opt.Nodup →
      (∀ d ∈ opt, ∀ e ∈ st.grid d p, check_conflicts c e = []) →
      TeacherOk ((opt.foldl (reserveDay rt c p) st)).grid := by
  intro opt
  induction opt with
  | nil => intro st hok _ _; exact hok
  | cons d t ih =>
    intro st hok hnd hfree
    rw [List.foldl_cons]
    have hok2 : TeacherOk (reserveDay rt c p st d).grid := by
      rw [reserveDay_grid]
      exact teacherOk_append hok (hfree d (by simp))
    apply ih _ hok2 (List.Nodup.of_cons hnd)
    intro d2 hd2 e he
    have hne : d2 ≠ d := fun hEq => (List.nodup_cons.mp hnd).1 (hEq ▸ hd2)
    rw [reserveDay_grid, gridAppend_ne _ _ _ _ _ _ (fun hC => hne hC.1)] at he
    exact hfree d2 (by simp [hd2]) e he

theorem teacherOk_schedule_class (inp : SchedInput) (st : SchedState) (c : ClassInfo)
    (opt : List Day) (p : Nat) (pref : Option RoomVal)
    (hok : TeacherOk st.grid) (hnd : opt.Nodup)
    (hfree : ∀ d ∈ opt, ∀ e ∈ st.grid d p, check_conflicts c e = []) :
    TeacherOk (schedule_class inp st c opt p pref).grid :=
  teacherOk_foldl_reserveDay _ c p opt st hok hnd hfree

theorem pattern_inferred_nodup (inp : SchedInput) (st : SchedState) (name : String)
    (freq : Nat) : ∀ l, (analyze_manual_session_pattern inp st name freq).inferred_days
      = some l → l.Nodup := by
  intro l h
  unfold analyze_manual_session_pattern at h
  rcases hl : lookupA inp.manual_session_assignments name with _ | sessions <;> rw [hl] at h
  · simp [emptyPattern] at h
  · dsimp only at h
    exact analyzeInferred_nodup _ _ _ h

theorem teacherOk_commit (inp : SchedInput) (st : SchedState) (c : ClassInfo)
    (pref : Option RoomVal) (hm : Bool) (pp : Option PeriodVal) (freq : Nat)
    (cands : List (Nat × List Day)) (pc : Nat) (optc : List Day)
    (hok : TeacherOk st.grid)
    (hnodup : ∀ cand ∈ cands, cand.snd.Nodup)
    (hres : searchGo inp st c pref hm pp freq cands none [] = SearchResult.committed pc optc
      ∨ searchGo inp st c pref hm pp freq cands none [] = SearchResult.viaFallback pc optc) :
    TeacherOk (schedule_class inp st c optc pc pref).grid := by
  have hgood := searchGo_good inp st c pref hm pp freq
    (fun p2 opt2 =>
      (can_schedule_class inp st.grid c opt2 p2 st.assigned_rooms pref).fst = true ∧
      opt2.Nodup)
    cands none []
    (fun cand hc hf => ⟨hf, hnodup cand hc⟩)
    (fun b hb => Option.noConfusion hb) pc optc hres
  exact teacherOk_schedule_class inp st c optc pc pref hok hgood.2
    (fun d hd e he => slotClassConflicts_eq_nil ((can_schedule_true_parts hgood.1 d hd).1) e he)

theorem teacherOk_scheduleOneClass (inp : SchedInput) (u a : Bool)
    (acc : SchedState × List UnschedRecord) (c : ClassInfo)
    (hok : TeacherOk acc.fst.grid) :
    TeacherOk (scheduleOneClass inp u a acc c).fst.grid := by
  unfold scheduleOneClass
  dsimp only
  split
  · exact hok
  · split
    · rename_i pc optc hres
      exact teacherOk_commit inp acc.fst c _ _ _ _ _ pc optc hok
        (fun cand hc => day_options_for_nodup inp acc.fst c.name _ _
          (pattern_inferred_nodup inp acc.fst c.name _) cand.snd (allCandidates_snd_mem hc))
        (Or.inl hres)
    · rename_i pc optc hres
      exact teacherOk_commit inp acc.fst c _ _ _ _ _ pc optc hok
        (fun cand hc => day_options_for_nodup inp acc.fst c.name _ _
          (pattern_inferred_nodup inp acc.fst c.name _) cand.snd (allCandidates_snd_mem hc))
        (Or.inr hres)
    · exact hok

theorem teacherOk_internal (inp : SchedInput) (u a : Bool) :
    TeacherOk (generate_schedule_internal inp u a).fst.grid := by
  have hauto : TeacherOk
      ((sortDesc (class_priority inp) inp.classes).foldl (scheduleOneClass inp u a)
        (manualPass inp, [])).fst.grid := by
    refine foldl_preserve
      (fun (acc : SchedState × List UnschedRecord) => TeacherOk acc.fst.grid) _ _ ?_ _ ?_
    · intro acc c2 hok
      exact teacherOk_scheduleOneClass inp u a acc c2 hok
    · exact teacherOk_manualPass inp
  have hgrid := (apply_room_preferences_grid
    ((sortDesc (class_priority inp) inp.classes).foldl (scheduleOneClass inp u a)
      (manualPass inp, [])).fst).1
  show TeacherOk (apply_room_preferences
    ((sortDesc (class_priority inp) inp.classes).foldl (scheduleOneClass inp u a)
      (manualPass inp, [])).fst).grid
  rw [hgrid]
  exact hauto

theorem pickComplete_pred (inp : SchedInput) (P : SchedState → Prop)
    (hrun : ∀ x : Approach, P (runApproach inp x).fst) (l : List Approach) :
    ∀ ob, pickComplete inp l = some ob → P ob.fst := by
  unfold pickComplete
  refine foldl_preserve
    (fun (acc : Option (SchedState × Int)) => ∀ ob, acc = some ob → P ob.fst) _ _ ?_ none ?_
  · intro s x hs
    dsimp only
    split
    · split
      · intro ob hob
        rw [Option.some_inj] at hob
        rw [← hob]
        exact hrun x
      · split
        · intro ob hob
          rw [Option.some_inj] at hob
          rw [← hob]
          exact hrun x
        · exact hs
    · exact hs
  · intro ob hob
    exact Option.noConfusion hob

theorem bestComplete_pred (inp : SchedInput) (u7 : Bool) (P : SchedState → Prop)
    (hrun : ∀ x : Approach, P (runApproach inp x).fst) :
    ∀ ob, bestComplete inp u7 = some ob → P ob.fst := by
  intro ob hob
  unfold bestComplete at hob
  rcases hpc : pickComplete inp (approachesFor u7) with _ | b
  · rw [hpc] at hob
    dsimp only at hob
    rcases hgl : (approachesFor u7).getLast? with _ | fb
    · rw [hgl] at hob
      exact Option.noConfusion hob
    · rw [hgl] at hob
      dsimp only at hob
      split at hob
      · rw [Option.some_inj] at hob
        rw [← hob]
        exact hrun fb
      · exact Option.noConfusion hob
  · rw [hpc] at hob
    dsimp only at hob
    rw [Option.some_inj] at hob
    rw [← hob]
    exact pickComplete_pred inp P hrun (approachesFor u7) b hpc

theorem selectIncomplete_pred (inp : SchedInput) (P : SchedState → Prop)
    (hrun : ∀ x : Approach, P (runApproach inp x).fst) (hInit : P initState)
    (l : List Approach) :
    (∀ ob, (selectIncomplete inp l).best = some ob → P ob.fst) ∧
    P (selectIncomplete inp l).lastSt := by
  unfold selectIncomplete
  refine foldl_preserve
    (fun (acc : IncompleteSel) =>
      (∀ ob, acc.best = some ob → P ob.fst) ∧ P acc.lastSt) _ _ ?_ _ ?_
  · intro s x hs
    unfold selectIncompleteStep
    dsimp only
    split
    · split
      · constructor
        · intro ob hob
          rw [Option.some_inj] at hob
          rw [← hob]
          exact hrun x
        · exact hrun x
      · exact ⟨hs.1, hrun x⟩
    · exact ⟨hs.1, hrun x⟩
  · refine ⟨?_, hInit⟩
    intro ob hob
    exact Option.noConfusion hob

theorem generate_schedule_pred (inp : SchedInput) (u7 : Bool) (P : SchedState → Prop)
    (hP : ∀ u a : Bool, P (generate_schedule_internal inp u a).fst)
    (hInit : P initState) : P (generate_schedule inp u7).state := by
  have hrun : ∀ x : Approach, P (runApproach inp x).fst := fun x => hP x.use_p7 x.aggressive
  unfold generate_schedule
  split
  · rename_i b hb
    exact bestComplete_pred inp u7 P hrun b hb
  · rename_i hb
    dsimp only
    split
    · rename_i bp hbp
      split
      · exact (selectIncomplete_pred inp P hrun hInit (approachesFor u7)).1 bp hbp
      · exact (selectIncomplete_pred inp P hrun hInit (approachesFor u7)).1 bp hbp
    · exact (selectIncomplete_pred inp P hrun hInit (approachesFor u7)).2

/-- C1: in every schedule a scheduling run produces - the grid of any
internal resolver-plus-search run under any flag combination, and the final
grid the multi-approach orchestrator selects - no two sessions of any one
(day, period) slot share a teacher. -/
theorem c1_theorem (inp : SchedInput) (u7 : Bool) (hv : validPeriods inp) :
    TeacherOk (generate_schedule inp u7).state.grid ∧
    ∀ u a : Bool, TeacherOk (generate_schedule_internal inp u a).fst.grid := by
  constructor
  · refine generate_schedule_pred inp u7 (fun st => TeacherOk st.grid) ?_ ?_
    · intro u a
      exact teacherOk_internal inp u a
    · intro d p
      exact List.Pairwise.nil
  · intro u a
    exact teacherOk_internal inp u a

/-- C1 witness: the invariant instantiated on a concrete run (empty class
list) at the Monday period 2 slot of the orchestrator output. -/
theorem c1_witness :
    ((generate_schedule c1ex false).state.grid Day.monday 2).Pairwise
      (fun a b => a.teacher ≠ b.teacher) :=
  (c1_theorem c1ex false (by constructor <;> decide)).1 Day.monday 2

theorem get_available_none (rooms : List ((Day × Nat × Room) × String)) (d : Day) (p : Nat)
    (r : Room) (h : get_available_regular_classroom rooms d p = some r) :
    lookupA rooms (d, p, r) = none := by
  unfold get_available_regular_classroom at h
  have h2 := List.find?_some h
  simpa using h2

theorem reserveDay_cases (rt : Option Room) (c : ClassInfo) (p : Nat)
    (st : SchedState) (d : Day) :
    (∃ r : Room, (rt = some r ∨
        lookupA st.assigned_rooms (d, p, r) = none) ∧
      reserveDay rt c p st d = { st with
        grid := gridAppend st.grid d p c
        assigned_rooms := insertA st.assigned_rooms (d, p, r) c.name
        room_assignments := insertA st.room_assignments (d, p, c.name)
          (RoomAssign.known r) }) ∨
    reserveDay rt c p st d = { st with grid := gridAppend st.grid d p c } := by
  rcases rt with _ | r
  · rcases hpool : get_available_regular_classroom st.assigned_rooms d p with _ | r
    · right
      unfold reserveDay
      rw [hpool]
    · left
      refine ⟨r, Or.inr (get_available_none _ _ _ _ hpool), ?_⟩
      unfold reserveDay
      rw [hpool]
  · left
    exact ⟨r, Or.inl rfl, rfl⟩

theorem slotNamesOk_append {st : SchedState} {d : Day} {p : Nat} {c : ClassInfo}
    (hs : SlotNamesOk st) (hfresh : ∀ e ∈ st.grid d p, e.name ≠ c.name) :
    ∀ d2 p2, ((gridAppend st.grid d p c d2 p2).map (fun c2 => c2.name)).Nodup := by
  intro d2 p2
  by_cases hk : d2 = d ∧ p2 = p
  · have hgg : gridAppend st.grid d p c d2 p2 = st.grid d p ++ [c] := by
      rw [hk.1, hk.2, gridAppend_self]
    rw [hgg, List.map_append]
    refine List.Nodup.append (hs d p) (List.nodup_singleton c.name) ?_
    intro x hx hx2
    have hx2b : x = c.name := by simpa using hx2
    subst hx2b
    rcases List.mem_map.mp hx with ⟨e, he, hee⟩
    exact hfresh e he hee
  · rw [gridAppend_ne _ _ _ _ _ _ hk]
    exact hs d2 p2

theorem gridNamesIn_append {st : SchedState} {d : Day} {p : Nat} {c : ClassInfo}
    {names : List String} (hg : GridNamesIn st names) (hc : c.name ∈ names) :
    ∀ d2 p2, ∀ e ∈ gridAppend st.grid d p c d2 p2, e.name ∈ names := by
  intro d2 p2 e he
  by_cases hk : d2 = d ∧ p2 = p
  · have hgg : gridAppend st.grid d p c d2 p2 = st.grid d p ++ [c] := by
      rw [hk.1, hk.2, gridAppend_self]
    rw [hgg] at he
    rcases List.mem_append.mp he with h3 | h3
    · exact hg d p e h3
    · rw [List.mem_singleton] at h3
      rw [h3]
      exact hc
  · rw [gridAppend_ne _ _ _ _ _ _ hk] at he
    exact hg d2 p2 e he

theorem roomInv_book (c : ClassInfo) (p : Nat) (r : Room) (names : List String)
    (st : SchedState) (d : Day)
    (hs : SlotNamesOk st) (hb : RoomLedgerOk st) (hg : GridNamesIn st names)
    (hc : c.name ∈ names)
    (hfresh : ∀ e ∈ st.grid d p, e.name ≠ c.name)
    (hnone : lookupA st.assigned_rooms (d, p, r) = none) :
    SlotNamesOk { st with
      grid := gridAppend st.grid d p c
      assigned_rooms := insertA st.assigned_rooms (d, p, r) c.name
      room_assignments := insertA st.room_assignments (d, p, c.name)
        (RoomAssign.known r) } ∧
    RoomLedgerOk { st with
      grid := gridAppend st.grid d p c
      assigned_rooms := insertA st.assigned_rooms (d, p, r) c.name
      room_assignments := insertA st.room_assignments (d, p, c.name)
        (RoomAssign.known r) } ∧
    GridNamesIn { st with
      grid := gridAppend st.grid d p c
      assigned_rooms := insertA st.assigned_rooms (d, p, r) c.name
      room_assignments := insertA st.room_assignments (d, p, c.name)
        (RoomAssign.known r) } names := by
  refine ⟨?_, ?_, ?_⟩
  · intro d2 p2
    exact slotNamesOk_append hs hfresh d2 p2
  · intro d2 p2 n r2 h
    have h2 : lookupA (insertA st.room_assignments (d, p, c.name) (RoomAssign.known r))
        (d2, p2, n) = some (RoomAssign.known r2) := h
    show lookupA (insertA st.assigned_rooms (d, p, r) c.name) (d2, p2, r2) = some n
    by_cases hk : ((d2, p2, n) : Day × Nat × String) = (d, p, c.name)
    · rw [hk, lookupA_insertA_self] at h2
      have hr2 : r = r2 := RoomAssign.known.inj (Option.some_inj.mp h2)
      have hcomp : d2 = d ∧ p2 = p ∧ n = c.name := by simpa using hk
      rw [hcomp.1, hcomp.2.1, hcomp.2.2, ← hr2, lookupA_insertA_self]
    · rw [lookupA_insertA_ne _ _ _ _ hk] at h2
      have h3 := hb d2 p2 n r2 h2
      by_cases hk2 : ((d2, p2, r2) : Day × Nat × Room) = (d, p, r)
      · exfalso
        rw [hk2, hnone] at h3
        exact Option.noConfusion h3
      · rw [lookupA_insertA_ne _ _ _ _ hk2]
        exact h3
  · intro d2 p2 e he
    exact gridNamesIn_append hg hc d2 p2 e he

theorem roomInv_reserveDay (rt : Option Room) (c : ClassInfo) (p : Nat)
    (names : List String) (st : SchedState) (d : Day)
    (hs : SlotNamesOk st) (hb : RoomLedgerOk st) (hg : GridNamesIn st names)
    (hc : c.name ∈ names)
    (hfresh : ∀ e ∈ st.grid d p, e.name ≠ c.name)
    (havail : ∀ r, rt = some r → lookupA st.assigned_rooms (d, p, r) = none) :
    SlotNamesOk (reserveDay rt c p st d) ∧ RoomLedgerOk (reserveDay rt c p st d) ∧
    GridNamesIn (reserveDay rt c p st d) names := by
  rcases reserveDay_cases rt c p st d with ⟨r, hr, heq⟩ | heq
  · have hnone : lookupA st.assigned_rooms (d, p, r) = none := by
      rcases hr with hr | hr
      · exact havail r hr
      · exact hr
    rw [heq]
    exact roomInv_book c p r names st d hs hb hg hc hfresh hnone
  · rw [heq]
    refine ⟨?_, hb, ?_⟩
    · intro d2 p2
      exact slotNamesOk_append hs hfresh d2 p2
    · intro d2 p2 e he
      exact gridNamesIn_append hg hc d2 p2 e he

theorem reserveDay_rooms_ne (rt : Option Room) (c : ClassInfo) (p : Nat)
    (st : SchedState) (d : Day) (d2 : Day) (p2 : Nat) (r2 : Room) (hne : d2 ≠ d) :
    lookupA (reserveDay rt c p st d).assigned_rooms (d2, p2, r2) =
      lookupA st.assigned_rooms (d2, p2, r2) := by
  rcases reserveDay_cases rt c p st d with ⟨r, _, heq⟩ | heq
  · rw [heq]
    exact lookupA_insertA_ne _ _ _ _ (fun hEq => hne (congrArg Prod.fst hEq))
  · rw [heq]

theorem roomInv_foldl_reserveDay (rt : Option Room) (c : ClassInfo) (p : Nat)
    (names : List String) (hc : c.name ∈ names) :
    ∀ (opt : List Day) (st : SchedState),
      SlotNamesOk st → RoomLedgerOk st → GridNamesIn st names →
      opt.Nodup →
      (∀ d ∈ opt, ∀ e ∈ st.grid d p, e.name ≠ c.name) →
      (∀ r, rt = some r → ∀ d ∈ opt, lookupA st.assigned_rooms (d, p, r) = none) →
      SlotNamesOk (opt.foldl (reserveDay rt c p) st) ∧
      RoomLedgerOk (opt.foldl (reserveDay rt c p) st) ∧
      GridNamesIn (opt.foldl (reserveDay rt c p) st) names := by
  intro opt
  induction opt with
  | nil =>
    intro st h1 h2 h3 _ _ _
    exact ⟨h1, h2, h3⟩
  | cons d t ih =>
    intro st h1 h2 h3 hnd hfresh havail
    rw [List.foldl_cons]
    obtain ⟨g1, g2, g3⟩ := roomInv_reserveDay rt c p names st d h1 h2 h3 hc
      (hfresh d (by simp)) (fun r hr => havail r hr d (by simp))
    refine ih (reserveDay rt c p st d) g1 g2 g3 (List.Nodup.of_cons hnd) ?_ ?_
    · intro d2 hd2 e he
      have hne : d2 ≠ d := fun hEq => (List.nodup_cons.mp hnd).1 (hEq ▸ hd2)
      rw [reserveDay_grid, gridAppend_ne _ _ _ _ _ _ (fun hC => hne hC.1)] at he
      exact hfresh d2 (by simp [hd2]) e he
    · intro r hr d2 hd2
      have hne : d2 ≠ d := fun hEq => (List.nodup_cons.mp hnd).1 (hEq ▸ hd2)
      rw [reserveDay_rooms_ne rt c p st d d2 p r hne]
      exact havail r hr d2 (by simp [hd2])

theorem feasible_room_avail {inp : SchedInput} {g : Day → Nat → List ClassInfo}
    {c : ClassInfo} {opt : List Day} {per : Nat}
    {rooms : List ((Day × Nat × Room) × String)} {pref : Option RoomVal}
    (h : (can_schedule_class inp g c opt per rooms pref).fst = true) :
    ∀ r, resolveRoomType inp c pref = some r → ∀ d ∈ opt,
      lookupA rooms (d, per, r) = none := by
  intro r hr d hd
  have h2 := (can_schedule_true_parts h d hd).2
  rw [hr] at h2
  unfold roomAvailConflicts at h2
  rcases hlk : lookupA rooms (d, per, r) with _ | v
  · rfl
  · exfalso
    have hm : memA rooms (d, per, r) = true := by
      simp [memA, hlk]
    dsimp only at h2
    rw [if_pos hm] at h2
    exact absurd h2 (by simp)

theorem roomInv_schedule_class (inp : SchedInput) (st : SchedState) (c : ClassInfo)
    (opt : List Day) (p : Nat) (pref : Option RoomVal) (names : List String)
    (hs : SlotNamesOk st) (hb : RoomLedgerOk st) (hg : GridNamesIn st names)
    (hc : c.name ∈ names) (hnd : opt.Nodup)
    (hfeas : (can_schedule_class inp st.grid c opt p st.assigned_rooms pref).fst = true)
    (hfresh : ∀ d ∈ opt, ∀ e ∈ st.grid d p, e.name ≠ c.name) :
    SlotNamesOk (schedule_class inp st c opt p pref) ∧
    RoomLedgerOk (schedule_class inp st c opt p pref) ∧
    GridNamesIn (schedule_class inp st c opt p pref) names :=
  roomInv_foldl_reserveDay (resolveRoomType inp c pref) c p names hc opt st hs hb hg hnd
    hfresh (fun r hr d hd => feasible_room_avail hfeas r hr d hd)

theorem roomInv_commit (inp : SchedInput) (st : SchedState) (c : ClassInfo)
    (pref : Option RoomVal) (hman : Bool) (pp : Option PeriodVal) (freq : Nat)
    (cands : List (Nat × List Day)) (pc : Nat) (optc : List Day) (names : List String)
    (hs : SlotNamesOk st) (hb : RoomLedgerOk st) (hg : GridNamesIn st names)
    (hc : c.name ∈ names)
    (hfresh : ∀ (d : Day) (p : Nat), ∀ e ∈ st.grid d p, e.name ≠ c.name)
    (hnodup : ∀ cand ∈ cands, cand.snd.Nodup)
    (hres : searchGo inp st c pref hman pp freq cands none [] = SearchResult.committed pc optc
      ∨ searchGo inp st c pref hman pp freq cands none [] = SearchResult.viaFallback pc optc) :
    SlotNamesOk (schedule_class inp st c optc pc pref) ∧
    RoomLedgerOk (schedule_class inp st c optc pc pref) ∧
    GridNamesIn (schedule_class inp st c optc pc pref) names := by
  have hgood := searchGo_good inp st c pref hman pp freq
    (fun p2 opt2 =>
      (can_schedule_class inp st.grid c opt2 p2 st.assigned_rooms pref).fst = true ∧
      opt2.Nodup)
    cands none []
    (fun cand hcm hf => ⟨hf, hnodup cand hcm⟩)
    (fun b hb2 => Option.noConfusion hb2) pc optc hres
  exact roomInv_schedule_class inp st c optc pc pref names hs hb hg hc hgood.2 hgood.1
    (fun d hd e he => hfresh d pc e he)

theorem gridNamesIn_mono {st : SchedState} {names names2 : List String}
    (h : GridNamesIn st names) (hsub : ∀ x ∈ names, x ∈ names2) :
    GridNamesIn st names2 :=
  fun d p e he => hsub e.name (h d p e he)

theorem roomInv_scheduleOneClass (inp : SchedInput) (u a : Bool)
    (acc : SchedState × List UnschedRecord) (c : ClassInfo) (names : List String)
    (hs : SlotNamesOk acc.fst) (hb : RoomLedgerOk acc.fst)
    (hg : GridNamesIn acc.fst names) (hc : c.name ∈ names)
    (hfresh : ∀ (d : Day) (p : Nat), ∀ e ∈ acc.fst.grid d p, e.name ≠ c.name) :
    SlotNamesOk (scheduleOneClass inp u a acc c).fst ∧
    RoomLedgerOk (scheduleOneClass inp u a acc c).fst ∧
    GridNamesIn (scheduleOneClass inp u a acc c).fst names := by
  unfold scheduleOneClass
  dsimp only
  split
  · exact ⟨hs, hb, hg⟩
  · split
    · rename_i pc optc hres
      exact roomInv_commit inp acc.fst c _ _ _ _ _ pc optc names hs hb hg hc hfresh
        (fun cand hcm => day_options_for_nodup inp acc.fst c.name _ _
          (pattern_inferred_nodup inp acc.fst c.name _) cand.snd (allCandidates_snd_mem hcm))
        (Or.inl hres)
    · rename_i pc optc hres
      exact roomInv_commit inp acc.fst c _ _ _ _ _ pc optc names hs hb hg hc hfresh
        (fun cand hcm => day_options_for_nodup inp acc.fst c.name _ _
          (pattern_inferred_nodup inp acc.fst c.name _) cand.snd (allCandidates_snd_mem hcm))
        (Or.inr hres)
    · exact ⟨hs, hb, hg⟩

theorem roomInv_autoPhase (inp : SchedInput) (u a : Bool) :
    ∀ (l : List ClassInfo) (acc : SchedState × List UnschedRecord) (done : List String),
      SlotNamesOk acc.fst → RoomLedgerOk acc.fst → GridNamesIn acc.fst done →
      (∀ c ∈ l, c.name ∉ done) → (l.map (fun c => c.name)).Nodup →
      SlotNamesOk (l.foldl (scheduleOneClass inp u a) acc).fst ∧
      RoomLedgerOk (l.foldl (scheduleOneClass inp u a) acc).fst := by
  intro l
  induction l with
  | nil =>
    intro acc done h1 h2 _ _ _
    exact ⟨h1, h2⟩
  | cons c t ih =>
    intro acc done h1 h2 h3 hnotin hnd
    rw [List.foldl_cons]
    have hfresh : ∀ (d : Day) (p : Nat), ∀ e ∈ acc.fst.grid d p, e.name ≠ c.name := by
      intro d p e he heq
      exact hnotin c (by simp) (heq ▸ h3 d p e he)
    obtain ⟨g1, g2, g3⟩ := roomInv_scheduleOneClass inp u a acc c (done ++ [c.name])
      h1 h2 (gridNamesIn_mono h3 (fun x hx => by simp [hx])) (by simp) hfresh
    refine ih (scheduleOneClass inp u a acc c) (done ++ [c.name]) g1 g2 g3 ?_ ?_
    · intro c2 hc2
      simp only [List.mem_append, List.mem_singleton]
      rintro (hin | heq)
      · exact hnotin c2 (by simp [hc2]) hin
      · exact (List.nodup_cons.mp hnd).1 (List.mem_map.mpr ⟨c2, hc2, heq⟩)
    · exact (List.nodup_cons.mp hnd).2

theorem insertDesc_perm {α : Type} (key : α → Int) (a : α) :
    ∀ l : List α, List.Perm (insertDesc key a l) (a :: l) := by
  intro l
  induction l with
  | nil => exact List.Perm.refl _
  | cons b bs ih =>
    unfold insertDesc
    by_cases h : key b ≤ key a
    · rw [if_pos h]
    · rw [if_neg h]
      exact List.Perm.trans (List.Perm.cons b ih) (List.Perm.swap a b bs)

theorem sortDesc_perm {α : Type} (key : α → Int) :
    ∀ l : List α, List.Perm (sortDesc key l) l := by
  intro l
  induction l with
  | nil => exact List.Perm.refl _
  | cons a t ih =>
    exact List.Perm.trans (insertDesc_perm key a (sortDesc key t)) (List.Perm.cons a ih)

theorem sortDesc_names_nodup (inp : SchedInput)
    (hnd : (inp.classes.map (fun c => c.name)).Nodup) :
    ((sortDesc (class_priority inp) inp.classes).map (fun c => c.name)).Nodup :=
  (List.Perm.nodup_iff (List.Perm.map _ (sortDesc_perm (class_priority inp)
    inp.classes))).mpr hnd

theorem manualPass_empty (inp : SchedInput) (hm : inp.manual_session_assignments = []) :
    manualPass inp = initState := by
  unfold manualPass filteredAssignments
  rw [hm]
  rfl

theorem foldl_reserveDay_room_prefs (rt : Option Room) (c : ClassInfo) (p : Nat) :
    ∀ (opt : List Day) (st : SchedState),
      (opt.foldl (reserveDay rt c p) st).room_prefs = st.room_prefs := by
  intro opt
  induction opt with
  | nil => intro st; rfl
  | cons d t ih =>
    intro st
    rw [List.foldl_cons, ih, reserveDay_room_prefs]

theorem scheduleOneClass_room_prefs (inp : SchedInput) (u a : Bool)
    (acc : SchedState × List UnschedRecord) (c : ClassInfo) :
    (scheduleOneClass inp u a acc c).fst.room_prefs = acc.fst.room_prefs := by
  unfold scheduleOneClass
  dsimp only
  split
  · rfl
  · split
    · rename_i pc optc hres
      exact foldl_reserveDay_room_prefs _ c pc optc acc.fst
    · rename_i pc optc hres
      exact foldl_reserveDay_room_prefs _ c pc optc acc.fst
    · rfl

theorem autoPhase_room_prefs (inp : SchedInput) (u a : Bool) (l : List ClassInfo) :
    ∀ acc : SchedState × List UnschedRecord,
      (l.foldl (scheduleOneClass inp u a) acc).fst.room_prefs = acc.fst.room_prefs := by
  induction l with
  | nil => intro acc; rfl
  | cons c t ih =>
    intro acc
    rw [List.foldl_cons, ih, scheduleOneClass_room_prefs]

theorem apply_room_preferences_empty (st : SchedState) (h : st.room_prefs = []) :
    apply_room_preferences st = st := by
  unfold apply_room_preferences
  rw [h]
  rfl

theorem roomExclusive_of_inv {st : SchedState} (hs : SlotNamesOk st)
    (hb : RoomLedgerOk st) : RoomExclusive st := by
  intro d p
  have h1 : ((st.grid d p).map (fun c2 => c2.name)).Pairwise (fun x y => x ≠ y) := hs d p
  rw [List.pairwise_map] at h1
  refine List.Pairwise.imp ?_ h1
  intro a b hab r hr
  have ha := hb d p a.name r hr.1
  have hb2 := hb d p b.name r hr.2
  rw [ha] at hb2
  exact hab (Option.some_inj.mp hb2)

theorem slotNamesOk_init : SlotNamesOk initState := by
  intro d p
  exact List.nodup_nil

theorem roomLedgerOk_init : RoomLedgerOk initState := by
  intro d p n r h
  exact Option.noConfusion h

theorem gridNamesIn_init : GridNamesIn initState [] := by
  intro d p c hc
  exact absurd hc (List.not_mem_nil c)

theorem roomExclusive_internal (inp : SchedInput) (u a : Bool)
    (hm : inp.manual_session_assignments = [])
    (hnd : (inp.classes.map (fun c => c.name)).Nodup) :
    RoomExclusive (generate_schedule_internal inp u a).fst := by
  have hmp : manualPass inp = initState := manualPass_empty inp hm
  have hinv := roomInv_autoPhase inp u a (sortDesc (class_priority inp) inp.classes)
    (manualPass inp, []) []
    (by show SlotNamesOk (manualPass inp); rw [hmp]; exact slotNamesOk_init)
    (by show RoomLedgerOk (manualPass inp); rw [hmp]; exact roomLedgerOk_init)
    (by show GridNamesIn (manualPass inp) []; rw [hmp]; exact gridNamesIn_init)
    (fun c hc => List.not_mem_nil c.name)
    (sortDesc_names_nodup inp hnd)
  have hrp : ((sortDesc (class_priority inp) inp.classes).foldl (scheduleOneClass inp u a)
      (manualPass inp, [])).fst.room_prefs = [] := by
    rw [autoPhase_room_prefs]
    show (manualPass inp).room_prefs = []
    rw [hmp]
    rfl
  have hid := apply_room_preferences_empty _ hrp
  show RoomExclusive (apply_room_preferences
    ((sortDesc (class_priority inp) inp.classes).foldl (scheduleOneClass inp u a)
      (manualPass inp, [])).fst)
  rw [hid]
  exact roomExclusive_of_inv hinv.1 hinv.2

/-- C4 counterexample: the claim says no two sessions of one slot are ever
resolved to the same concrete room.  But the manual-pin pass books a
recognized manual room with no availability check, so two conflict-free
classes pinned to Monday period 2 with the same manual room Classroom 2 both
land in that slot resolved to Classroom 2, and the produced state violates
the room-exclusivity invariant. -/
theorem c4_counterexample :
    ((generate_schedule_internal c4exBad false false).fst.grid Day.monday 2).map
        (fun c => c.name) = ["A", "B"] ∧
    resolvedRoom (generate_schedule_internal c4exBad false false).fst Day.monday 2 "A" =
      some (RoomAssign.known Room.classroom_2) ∧
    resolvedRoom (generate_schedule_internal c4exBad false false).fst Day.monday 2 "B" =
      some (RoomAssign.known Room.classroom_2) ∧
    ¬ RoomExclusive (generate_schedule_internal c4exBad false false).fst := by
  refine ⟨by decide, by decide, by decide, ?_⟩
  intro hre
  have h2 := hre Day.monday 2
  have hslot : (generate_schedule_internal c4exBad false false).fst.grid Day.monday 2 =
      [{ name := "A", teacher := "t1", courseName := "", units := some 4, students := [] },
       { name := "B", teacher := "t2", courseName := "", units := some 4, students := [] }] := by
    decide
  rw [hslot, List.pairwise_cons] at h2
  have h3 := h2.1
    { name := "B", teacher := "t2", courseName := "", units := some 4, students := [] }
    (by simp)
  exact h3 Room.classroom_2 ⟨by decide, by decide⟩

/-- C4 amended: the room-exclusivity invariant does hold for every schedule a
run produces from inputs with no per-session manual rows and pairwise
distinct class names - both for the state any internal run leaves under any
flag combination and for the state the multi-approach orchestrator reports.
(With manual rows present the pin pass books rooms without any availability
check, and the preference overwrite of apply_room_preferences is equally
unchecked, so the unconditional claim fails; see the counterexample.) -/
theorem c4_theorem (inp : SchedInput) (u7 : Bool) (hv : validPeriods inp)
    (hm : inp.manual_session_assignments = [])
    (hnd : (inp.classes.map (fun c => c.name)).Nodup) :
    RoomExclusive (generate_schedule inp u7).state ∧
    ∀ u a : Bool, RoomExclusive (generate_schedule_internal inp u a).fst := by
  constructor
  · refine generate_schedule_pred inp u7 RoomExclusive ?_ ?_
    · intro u a
      exact roomExclusive_internal inp u a hm hnd
    · intro d p
      exact List.Pairwise.nil
  · intro u a
    exact roomExclusive_internal inp u a hm hnd

/-- C4 witness: the amended invariant instantiated on a concrete two-class
input that the orchestrator auto-places. -/
theorem c4_witness : RoomExclusive (generate_schedule c4exGood false).state :=
  (c4_theorem c4exGood false (by constructor <;> decide) rfl (by decide)).1

theorem countName_gridAppend_ne (g : Day → Nat → List ClassInfo) (d : Day) (p : Nat)
    (c : ClassInfo) (d2 : Day) (p2 : Nat) (n : String) (hne : c.name ≠ n) :
    countName (gridAppend g d p c d2 p2) n = countName (g d2 p2) n := by
  by_cases hk : d2 = d ∧ p2 = p
  · have hgg : gridAppend g d p c d2 p2 = g d2 p2 ++ [c] := by
      rw [hk.1, hk.2, gridAppend_self]
    rw [hgg]
    simp [countName, List.filter_append, hne]
  · rw [gridAppend_ne _ _ _ _ _ _ hk]

theorem foldl_reserveDay_count_ne (rt : Option Room) (c : ClassInfo) (pc : Nat)
    (n : String) (hne : c.name ≠ n) :
    ∀ (opt : List Day) (st : SchedState) (d : Day) (p : Nat),
      countName ((opt.foldl (reserveDay rt c pc) st).grid d p) n =
        countName (st.grid d p) n := by
  intro opt
  induction opt with
  | nil => intro st d p; rfl
  | cons d0 t ih =>
    intro st d p
    rw [List.foldl_cons, ih, reserveDay_grid, countName_gridAppend_ne _ _ _ _ _ _ _ hne]

theorem foldl_reserveDay_grid_other (rt : Option Room) (c : ClassInfo) (pc : Nat) :
    ∀ (opt : List Day) (st : SchedState) (d2 : Day) (p2 : Nat), p2 ≠ pc →
      (opt.foldl (reserveDay rt c pc) st).grid d2 p2 = st.grid d2 p2 := by
  intro opt
  induction opt with
  | nil => intro st d2 p2 _; rfl
  | cons d t ih =>
    intro st d2 p2 hne
    rw [List.foldl_cons, ih _ d2 p2 hne, reserveDay_grid,
      gridAppend_ne _ _ _ _ _ _ (fun hC => hne hC.2)]

theorem scheduleOneClass_count_other (inp : SchedInput) (u a : Bool)
    (acc : SchedState × List UnschedRecord) (c : ClassInfo) (n : String)
    (hne : c.name ≠ n) (d : Day) (p : Nat) :
    countName ((scheduleOneClass inp u a acc c).fst.grid d p) n =
      countName (acc.fst.grid d p) n := by
  unfold scheduleOneClass
  dsimp only
  split
  · rfl
  · split
    · rename_i pc optc hres
      exact foldl_reserveDay_count_ne _ c pc n hne optc acc.fst d p
    · rename_i pc optc hres
      exact foldl_reserveDay_count_ne _ c pc n hne optc acc.fst d p
    · rfl

theorem scheduleOneClass_count_single (inp : SchedInput) (u a : Bool)
    (acc : SchedState × List UnschedRecord) (c : ClassInfo) (n : String) :
    ∃ P : Nat, ∀ (d : Day) (p : Nat), p ≠ P →
      countName ((scheduleOneClass inp u a acc c).fst.grid d p) n =
        countName (acc.fst.grid d p) n := by
  unfold scheduleOneClass
  dsimp only
  split
  · exact ⟨0, fun d p _ => rfl⟩
  · split
    · rename_i pc optc hres
      exact ⟨pc, fun d p hp => congrArg (fun l => countName l n)
        (foldl_reserveDay_grid_other _ c pc optc acc.fst d p hp)⟩
    · rename_i pc optc hres
      exact ⟨pc, fun d p hp => congrArg (fun l => countName l n)
        (foldl_reserveDay_grid_other _ c pc optc acc.fst d p hp)⟩
    · exact ⟨0, fun d p _ => rfl⟩

theorem autoPhase_count_ne (inp : SchedInput) (u a : Bool) (n : String) :
    ∀ (l : List ClassInfo), (∀ c ∈ l, c.name ≠ n) →
      ∀ (acc : SchedState × List UnschedRecord) (d : Day) (p : Nat),
      countName ((l.foldl (scheduleOneClass inp u a) acc).fst.grid d p) n =
        countName (acc.fst.grid d p) n := by
  intro l
  induction l with
  | nil => intro _ acc d p; rfl
  | cons c t ih =>
    intro hno acc d p
    rw [List.foldl_cons, ih (fun c2 hc2 => hno c2 (by simp [hc2])),
      scheduleOneClass_count_other inp u a acc c n (hno c (by simp))]

theorem autoPhase_count_single (inp : SchedInput) (u a : Bool) (n : String) :
    ∀ (l : List ClassInfo), (l.map (fun c => c.name)).Nodup →
      ∀ (acc : SchedState × List UnschedRecord),
      ∃ P : Nat, ∀ (d : Day) (p : Nat),
        countName ((l.foldl (scheduleOneClass inp u a) acc).fst.grid d p) n >
          countName (acc.fst.grid d p) n → p = P := by
  intro l
  induction l with
  | nil =>
    intro _ acc
    exact ⟨0, fun d p hgt => absurd hgt (by rw [List.foldl_nil]; exact lt_irrefl _)⟩
  | cons c t ih =>
    intro hnd acc
    by_cases hcn : c.name = n
    · obtain ⟨P, hP⟩ := scheduleOneClass_count_single inp u a acc c n
      refine ⟨P, fun d p hgt => ?_⟩
      rw [List.foldl_cons,
        autoPhase_count_ne inp u a n t
          (fun c2 hc2 heq => (List.nodup_cons.mp hnd).1
            (List.mem_map.mpr ⟨c2, hc2, heq.trans hcn.symm⟩))
          (scheduleOneClass inp u a acc c) d p] at hgt
      by_contra hpne
      rw [hP d p hpne] at hgt
      exact absurd hgt (lt_irrefl _)
    · obtain ⟨P, hP⟩ := ih (List.nodup_cons.mp hnd).2 (scheduleOneClass inp u a acc c)
      refine ⟨P, fun d p hgt => ?_⟩
      rw [List.foldl_cons,
        ← scheduleOneClass_count_other inp u a acc c n hcn d p] at hgt
      exact hP d p hgt

/-- C10: in one internal run, relative to the state the manual pass left, the
sessions the automatic search adds for any one class name all sit at a single
period: there is one period P such that every slot whose session count for
that name exceeds its manual-pass count lies at period P.  (Stated for inputs
with pairwise distinct class names; the search commits one (period, day
pattern) choice per class and places one session at that period on each day
of the pattern.) -/
theorem c10_theorem (inp : SchedInput) (u a : Bool) (hv : validPeriods inp)
    (hnd : (inp.classes.map (fun c => c.name)).Nodup) (n : String) :
    ∃ P : Nat, ∀ (d : Day) (p : Nat),
      countName ((generate_schedule_internal inp u a).fst.grid d p) n >
        countName ((manualPass inp).grid d p) n → p = P := by
  obtain ⟨P, hP⟩ := autoPhase_count_single inp u a n
    (sortDesc (class_priority inp) inp.classes) (sortDesc_names_nodup inp hnd)
    (manualPass inp, [])
  refine ⟨P, fun d p hgt => ?_⟩
  apply hP d p
  have hgrid := (apply_room_preferences_grid
    ((sortDesc (class_priority inp) inp.classes).foldl (scheduleOneClass inp u a)
      (manualPass inp, [])).fst).1
  have hgt2 : countName ((apply_room_preferences
      ((sortDesc (class_priority inp) inp.classes).foldl (scheduleOneClass inp u a)
        (manualPass inp, [])).fst).grid d p) n >
      countName ((manualPass inp).grid d p) n := hgt
  rw [hgrid] at hgt2
  exact hgt2

/-- C10 witness: the single-period property instantiated on a concrete run
that auto-places one three-session class. -/
theorem c10_witness :
    ∃ P : Nat, ∀ (d : Day) (p : Nat),
      countName ((generate_schedule_internal c10ex false false).fst.grid d p) "X" >
        countName ((manualPass c10ex).grid d p) "X" → p = P :=
  c10_theorem c10ex false false (by constructor <;> decide) (by decide) "X"

theorem foldl_preserve_mem {σ α : Type} (P : σ → Prop) (f : σ → α → σ) :
    ∀ (l : List α), (∀ s, ∀ x ∈ l, P s → P (f s x)) →
      ∀ s, P s → P (l.foldl f s) := by
  intro l
  induction l with
  | nil => intro _ s hs; exact hs
  | cons a t ih =>
    intro h s hs
    rw [List.foldl_cons]
    exact ih (fun s2 x hx => h s2 x (by simp [hx])) (f s a) (h s a (by simp) hs)

theorem pickComplete_none (inp : SchedInput) (l : List Approach)
    (hne : ∀ a ∈ l, (runApproach inp a).snd ≠ []) :
    pickComplete inp l = none := by
  unfold pickComplete
  refine foldl_preserve_mem (fun acc => acc = none) _ l ?_ none rfl
  intro s a ha hs
  dsimp only
  rw [if_neg (hne a ha)]
  exact hs

theorem bestComplete_none (inp : SchedInput) (u7 : Bool)
    (hne : ∀ a ∈ approachesFor u7, (runApproach inp a).snd ≠ []) :
    bestComplete inp u7 = none := by
  unfold bestComplete
  rw [pickComplete_none inp _ hne]
  rcases hgl : (approachesFor u7).getLast? with _ | fb
  · rfl
  · dsimp only
    have hfbmem : fb ∈ approachesFor u7 := by
      rcases List.mem_getLast?_eq_getLast (Option.mem_def.mpr hgl) with ⟨h, heq⟩
      rw [heq]
      exact List.getLast_mem h
    rw [if_neg (hne fb hfbmem)]

theorem selHolds_first (inp : SchedInput) (acc : IncompleteSel) (a : Approach)
    (hminU : acc.minU = 999999)
    (ht : 0 < totalScheduled (runApproach inp a).fst)
    (hlen : ((runApproach inp a).snd.length : Int) < 999999) :
    SelHolds (selectIncompleteStep inp acc a) [runApproach inp a] := by
  unfold selectIncompleteStep
  dsimp only
  rw [if_pos ht]
  split
  · refine ⟨runApproach inp a, by simp, rfl, rfl, rfl, ?_, ?_⟩
    · intro r2 hr2
      rw [List.mem_singleton] at hr2
      rw [hr2]
    · intro r2 hr2 _
      rw [List.mem_singleton] at hr2
      rw [hr2]
  · rename_i hcond
    exfalso
    apply hcond
    left
    show ((runApproach inp a).snd.length : Int) < acc.minU
    rw [hminU]
    exact hlen

theorem selHolds_step (inp : SchedInput) (acc : IncompleteSel)
    (rs : List (SchedState × List UnschedRecord)) (a : Approach)
    (hh : SelHolds acc rs) (ht : 0 < totalScheduled (runApproach inp a).fst) :
    SelHolds (selectIncompleteStep inp acc a) (rs ++ [runApproach inp a]) := by
  obtain ⟨r, hrmem, hbest, hminU, hscore, hmin, htie⟩ := hh
  unfold selectIncompleteStep
  dsimp only
  rw [if_pos ht]
  split
  · rename_i hcond
    have hcond2 : ((runApproach inp a).snd.length : Int) < acc.minU ∨
        (((runApproach inp a).snd.length : Int) = acc.minU ∧
          adjustedScore (runApproach inp a) > acc.bestScore) := hcond
    refine ⟨runApproach inp a, by simp, rfl, rfl, rfl, ?_, ?_⟩
    · intro r2 hr2
      rcases List.mem_append.mp hr2 with h | h
      · rcases hcond2 with hlt | ⟨heq, _⟩
        · rw [hminU] at hlt
          have hlt2 : (runApproach inp a).snd.length < r.snd.length := by
            exact_mod_cast hlt
          exact le_trans (Nat.le_of_lt hlt2) (hmin r2 h)
        · rw [hminU] at heq
          have heq2 : (runApproach inp a).snd.length = r.snd.length := by
            exact_mod_cast heq
          rw [heq2]
          exact hmin r2 h
      · rw [List.mem_singleton] at h
        rw [h]
    · intro r2 hr2 hlen
      rcases List.mem_append.mp hr2 with h | h
      · rcases hcond2 with hlt | ⟨heq, hgt⟩
        · exfalso
          rw [hminU] at hlt
          have hlt2 : (runApproach inp a).snd.length < r.snd.length := by
            exact_mod_cast hlt
          have h2 := hmin r2 h
          omega
        · rw [hminU] at heq
          have heq2 : (runApproach inp a).snd.length = r.snd.length := by
            exact_mod_cast heq
          have h3 := htie r2 h (by omega)
          rw [← hscore] at h3
          exact le_trans h3 (le_of_lt hgt)
      · rw [List.mem_singleton] at h
        rw [h]
  · rename_i hcond
    have hcond2 : ¬(((runApproach inp a).snd.length : Int) < acc.minU ∨
        (((runApproach inp a).snd.length : Int) = acc.minU ∧
          adjustedScore (runApproach inp a) > acc.bestScore)) := hcond
    have hnA : ¬(((runApproach inp a).snd.length : Int) < acc.minU) :=
      fun hA => hcond2 (Or.inl hA)
    have hge : r.snd.length ≤ (runApproach inp a).snd.length := by
      rw [hminU] at hnA
      have := Int.not_lt.mp hnA
      exact_mod_cast this
    refine ⟨r, List.mem_append_left _ hrmem, hbest, hminU, hscore, ?_, ?_⟩
    · intro r2 hr2
      rcases List.mem_append.mp hr2 with h | h
      · exact hmin r2 h
      · rw [List.mem_singleton] at h
        rw [h]
        exact hge
    · intro r2 hr2 hlen
      rcases List.mem_append.mp hr2 with h | h
      · exact htie r2 h hlen
      · rw [List.mem_singleton] at h
        subst h
        have hB : ((runApproach inp a).snd.length : Int) = acc.minU := by
          rw [hminU]
          exact_mod_cast hlen
        have hnC : ¬(adjustedScore (runApproach inp a) > acc.bestScore) :=
          fun hC => hcond2 (Or.inr ⟨hB, hC⟩)
        rw [hscore] at hnC
        exact Int.not_lt.mp hnC

theorem selHolds_foldl (inp : SchedInput) :
    ∀ (l : List Approach) (acc : IncompleteSel)
      (rs : List (SchedState × List UnschedRecord)),
      (∀ a ∈ l, 0 < totalScheduled (runApproach inp a).fst) →
      SelHolds acc rs →
      SelHolds (l.foldl (selectIncompleteStep inp) acc)
        (rs ++ l.map (runApproach inp)) := by
  intro l
  induction l with
  | nil =>
    intro acc rs _ hh
    simpa using hh
  | cons a t ih =>
    intro acc rs hcond hh
    rw [List.foldl_cons, List.map_cons, List.append_cons]
    exact ih (selectIncompleteStep inp acc a) (rs ++ [runApproach inp a])
      (fun a2 ha2 => hcond a2 (by simp [ha2]))
      (selHolds_step inp acc rs a hh (hcond a (by simp)))

theorem selectIncomplete_holds (inp : SchedInput) (u7 : Bool)
    (ht : ∀ r ∈ approachRuns inp u7, 0 < totalScheduled r.fst ∧
      (r.snd.length : Int) < 999999) :
    SelHolds (selectIncomplete inp (approachesFor u7)) (approachRuns inp u7) := by
  rcases hl : approachesFor u7 with _ | ⟨a, t⟩
  · exfalso
    cases u7 <;> simp [approachesFor] at hl
  · have hmem : ∀ a2 ∈ a :: t, runApproach inp a2 ∈ approachRuns inp u7 := by
      intro a2 ha2
      unfold approachRuns
      rw [hl]
      exact List.mem_map.mpr ⟨a2, ha2, rfl⟩
    have h1 : SelHolds (selectIncompleteStep inp
        { minU := 999999, bestScore := -999999, best := none, lastU := [],
          lastSt := initState } a) [runApproach inp a] :=
      selHolds_first inp _ a rfl (ht _ (hmem a (by simp))).1 (ht _ (hmem a (by simp))).2
    have h2 := selHolds_foldl inp t (selectIncompleteStep inp
        { minU := 999999, bestScore := -999999, best := none, lastU := [],
          lastSt := initState } a) [runApproach inp a]
      (fun a2 ha2 => (ht _ (hmem a2 (by simp [ha2]))).1) h1
    have har : approachRuns inp u7 = runApproach inp a :: List.map (runApproach inp) t := by
      unfold approachRuns
      rw [hl, List.map_cons]
    unfold selectIncomplete
    rw [har, List.foldl_cons]
    exact h2

/-- C6: when every configuration of the multi-approach orchestrator leaves
some class unscheduled (each run scheduling at least one session and staying
under the 999999 sentinel), the orchestrator keeps a run with the fewest
unscheduled classes - breaking count ties by the adjusted score, first seen
winning - and reports success with an empty unscheduled list exactly when
that minimum count is at or below ten percent of the class count, otherwise
failure with that run's full unscheduled list; either way the kept run's
state is the reported schedule. -/
theorem c6_theorem (inp : SchedInput) (u7 : Bool)
    (hne : ∀ r ∈ approachRuns inp u7, r.snd ≠ [])
    (ht : ∀ r ∈ approachRuns inp u7, 0 < totalScheduled r.fst)
    (hcap : ∀ r ∈ approachRuns inp u7, (r.snd.length : Int) < 999999) :
    ∃ r ∈ approachRuns inp u7,
      (∀ r2 ∈ approachRuns inp u7, r.snd.length ≤ r2.snd.length) ∧
      (∀ r2 ∈ approachRuns inp u7, r2.snd.length = r.snd.length →
        adjustedScore r2 ≤ adjustedScore r) ∧
      generate_schedule inp u7 =
        (if acceptIncomplete r.snd.length inp.classes.length then
          { success := true, unscheduled := [], state := r.fst }
        else
          { success := false, unscheduled := r.snd, state := r.fst }) := by
  have hne2 : ∀ a ∈ approachesFor u7, (runApproach inp a).snd ≠ [] := by
    intro a ha
    exact hne (runApproach inp a) (List.mem_map.mpr ⟨a, ha, rfl⟩)
  have hbc := bestComplete_none inp u7 hne2
  obtain ⟨r, hrmem, hbest, hminU, hscore, hmin, htie⟩ :=
    selectIncomplete_holds inp u7 (fun r2 hr2 => ⟨ht r2 hr2, hcap r2 hr2⟩)
  refine ⟨r, hrmem, hmin, htie, ?_⟩
  unfold generate_schedule
  rw [hbc]
  dsimp only
  rw [hbest]

/-- C6 witness: the selection property instantiated on a concrete input
whose three runs each leave one class unscheduled (two same-teacher
three-session classes with a legacy manual period). -/
theorem c6_witness :
    ∃ r ∈ approachRuns c6ex false,
      (∀ r2 ∈ approachRuns c6ex false, r.snd.length ≤ r2.snd.length) ∧
      (∀ r2 ∈ approachRuns c6ex false, r2.snd.length = r.snd.length →
        adjustedScore r2 ≤ adjustedScore r) ∧
      generate_schedule c6ex false =
        (if acceptIncomplete r.snd.length c6ex.classes.length then
          { success := true, unscheduled := [], state := r.fst }
        else
          { success := false, unscheduled := r.snd, state := r.fst }) :=
  c6_theorem c6ex false (by decide) (by decide) (by decide)
